import Mathlib

/-!
Verification of the react-counters repository: a shallow embedding in Lean 4
of its two algorithmic cores, the numbering-system / style formatter
(`src/style.ts`, provided as `unnamed/part_003`) and the counter propagation
engine (`src/src/observer.ts`), plus the per-counter registration table
(`State`, `unnamed/part_004` / `src/src/state.ts`).

Conventions used throughout:
* JS `number` values that are always integers are modelled as `Int` (or `Nat`
  after an explicit non-negativity normalisation mirroring the source).
* JS array indexing `xs[i]`, which yields `undefined` out of bounds, is
  modelled as `Option` lookup; the only consumer in the source tests the
  result with `== null`, which treats `null` and `undefined` alike, so both
  are modelled as `none`.
* `±Infinity` range endpoints are modelled by the explicit `XBound` type.
* All symbol strings in the source are sequences of BMP code points, so the
  JS UTF-16 `length` coincides with Lean's `String.length` on every string
  manipulated here.
-/

namespace ReactCounters

/-- Repeated string concatenation, the result of JS `s.repeat(k)`. -/
def strRepeat (s : String) : Nat → String
  | 0 => ""
  | k + 1 => s ++ strRepeat s k

/-- JS array access `xs[i]` for a possibly negative index: out-of-bounds
access (including any negative index) yields `undefined`, modelled `none`. -/
def jsGetI (xs : List String) (i : Int) : Option String :=
  if i < 0 then none else xs.get? i.toNat

/-- A range endpoint: a finite number or `±Infinity` (`Range.min` /
`Range.max` in the source take both kinds of value). -/
inductive XBound where
  | negInf
  | fin (n : Int)
  | posInf
deriving DecidableEq, Repr

/-- `n < b` for a bound `b`, as JS `<` evaluates against `±Infinity`. -/
def numLtBound (n : Int) : XBound → Bool
  | .negInf => false
  | .fin m => n < m
  | .posInf => true

/-- `n > b` for a bound `b`, as JS `>` evaluates against `±Infinity`. -/
def numGtBound (n : Int) : XBound → Bool
  | .negInf => true
  | .fin m => m < n
  | .posInf => false

/-- JS truthiness of a range endpoint: `0` is falsy, every other number
(including `±Infinity`) is truthy. -/
def boundTruthy : XBound → Bool
  | .negInf => true
  | .fin n => n != 0
  | .posInf => true

/-- The source expression `range?.min || system.range.min`: an absent or
falsy explicit endpoint defers to the system's endpoint. -/
def jsOrBound : Option XBound → XBound → XBound
  | none, d => d
  | some b, d => if boundTruthy b then b else d

/-- `Range` of the source (`{ min, max }`). Named `CSRange` to avoid the
`Std.Range` clash. -/
structure CSRange where
  min : XBound
  max : XBound
deriving DecidableEq, Repr

/-- `number < range.min || number > range.max`, the guard of
`Style.formatNumber`. -/
def outOfRange (r : CSRange) (n : Int) : Bool :=
  numLtBound n r.min || numGtBound n r.max

/-- The numbering systems of the source: each class implementing `System`
becomes one constructor carrying its constructor arguments. `Chinese`'s
`counters` table is keyed only at 10/100/1000, carried as three strings. -/
inductive CSystem where
  | cyclic (symbols : List String)
  | fixed (symbols : List String) (firstValue : Int)
  | symbolic (symbols : List String)
  | alphabetic (symbols : List String)
  | numeric (symbols : List String)
  | additive (symbols : List (Int × String))
  | chinese (formal : Bool) (digits : List String) (c10 c100 c1000 : String)
  | ethiopic
deriving DecidableEq, Repr

/-- The `range` getter of each system class. -/
def CSystem.range : CSystem → CSRange
  | .cyclic _ => ⟨.negInf, .posInf⟩
  | .fixed _ _ => ⟨.negInf, .posInf⟩
  | .symbolic _ => ⟨.fin 1, .posInf⟩
  | .alphabetic _ => ⟨.fin 1, .posInf⟩
  | .numeric _ => ⟨.negInf, .posInf⟩
  | .additive _ => ⟨.fin 0, .posInf⟩
  | .chinese _ _ _ _ _ => ⟨.fin (-9999), .fin 9999⟩
  | .ethiopic => ⟨.fin 1, .posInf⟩

/-- The digit-emitting loop of `Numeric.format`:
`while (number !== 0) { result = symbols[number % N] + result; number = floor(number / N) }`,
on the non-negative numbers the style wrapper actually passes. A missing
symbol is concatenated as the string `"undefined"`, as JS `+` would.
For `N ≤ 1` the JS loop never terminates; no built-in style has fewer than
two symbols and no theorem evaluates that branch. -/
def numericLoop (symbols : List String) (n : Nat) : String :=
  if n = 0 then ""
  else if h : symbols.length ≤ 1 then ""
  else
    numericLoop symbols (n / symbols.length) ++
      ((symbols.get? (n % symbols.length)).getD "undefined")
decreasing_by
  exact Nat.div_lt_self (Nat.pos_of_ne_zero (by assumption)) (by omega)

/-- `Numeric.format`. Zero yields `symbols[0]`; a negative argument makes
the JS loop diverge, but `Style.formatNumber` only ever passes non-negative
numbers, so that branch is modelled as `none` and never evaluated. -/
def numericFormat (symbols : List String) (v : Int) : Option String :=
  if v = 0 then symbols.get? 0
  else if v < 0 then none
  else some (numericLoop symbols v.toNat)

/-- The loop of `Alphabetic.format` (bijective base-N): each pass emits
`symbols[(n-1) % N]` for the least significant digit and continues with
`floor((n-1) / N)`. The `N = 0` guard covers a branch where JS diverges;
no built-in alphabetic style has an empty symbol list. -/
def alphaLoop (symbols : List String) (n : Nat) : String :=
  if n = 0 then ""
  else if h : symbols.length = 0 then ""
  else
    alphaLoop symbols ((n - 1) / symbols.length) ++
      ((symbols.get? ((n - 1) % symbols.length)).getD "undefined")
decreasing_by
  exact Nat.lt_of_le_of_lt (Nat.div_le_self _ _) (by omega)

/-- `Alphabetic.format`: the `while (number > 0)` loop is skipped entirely
for `v ≤ 0`, returning the empty string. -/
def alphabeticFormat (symbols : List String) (v : Int) : Option String :=
  some (alphaLoop symbols v.toNat)

/-- `Cyclic.format`: `symbols[Math.abs((number - 1) % N)]`, where `%` is the
JS remainder (sign of the dividend, `Int.tmod`). An empty symbol list makes
the JS index `NaN` and the access `undefined`, modelled `none`. -/
def cyclicFormat (symbols : List String) (v : Int) : Option String :=
  if symbols.length = 0 then none
  else symbols.get? ((v - 1).tmod symbols.length).natAbs

/-- `Fixed.format`: `index >= N ? null : symbols[index]`; a negative index
falls through to the array access and yields `undefined`. Both `null` and
`undefined` are `none` here (the only consumer tests `== null`). -/
def fixedFormat (symbols : List String) (firstValue : Int) (v : Int) :
    Option String :=
  let index := v - firstValue
  if (symbols.length : Int) ≤ index then none
  else jsGetI symbols index

/-- `Symbolic.format`: `symbols[(v-1) % N]` repeated `⌈v / N⌉` times, `null`
above 60 repetitions. The style wrapper guards `v ≥ 1` via the system range;
smaller arguments would crash JS (`undefined.repeat`) and are `none` here. -/
def symbolicFormat (symbols : List String) (v : Int) : Option String :=
  if v < 1 then none
  else if h : symbols.length = 0 then none
  else
    let index := ((v - 1).tmod symbols.length).toNat
    let count := ((v + symbols.length - 1) / symbols.length).toNat
    if 60 < count then none
    else some (strRepeat ((symbols.get? index).getD "undefined") count)

/-- The greedy loop of `Additive.format`:
`for (i = 0; i < symbols.length && value > 0; ++i)` with
`count = floor(value / weight)`, appending `symbol.repeat(count)` and
subtracting `weight * count`. Returns the accumulated string and the final
residue. A zero weight reached with positive residue throws in JS
(`repeat(Infinity)`); it is modelled as a no-op step and never evaluated
under the weight hypotheses of the theorems below. -/
def addLoop : List (Int × String) → Int → String → String × Int
  | [], v, acc => (acc, v)
  | (w, s) :: rest, v, acc =>
    if 0 < v then
      let count := v / w
      addLoop rest (v - w * count) (acc ++ strRepeat s count.toNat)
    else (acc, v)

/-- `Additive.format`: with `value = 0` the last symbol pair is consulted
first and returned when its weight is zero (an empty symbol list would
crash JS destructuring `symbols[-1]`; that dead corner is `none`);
otherwise the greedy pass runs and a nonzero residue yields `null`. -/
def additiveFormat (symbols : List (Int × String)) (v : Int) : Option String :=
  if v = 0 then
    match symbols.getLast? with
    | none => none
    | some (w, s) =>
      if w = 0 then some s
      else if (addLoop symbols v "").2 ≠ 0 then none
      else some (addLoop symbols v "").1
  else
    if (addLoop symbols v "").2 ≠ 0 then none
    else some (addLoop symbols v "").1

/-- `mult = Math.pow(10, Math.floor(Math.log10(number)))` for a positive
integer: the largest power of ten not exceeding `n`. -/
def msdPow (n : Nat) : Nat :=
  if n < 10 then 1 else 10 * msdPow (n / 10)
decreasing_by
  exact Nat.div_lt_self (by omega) (by omega)

/-- `result += this.counters[mult]` of `Chinese.format`, appended only for
`mult > 1`: the counters table is keyed at 10/100/1000 and any other
`mult > 1` would append `"undefined"` in JS. -/
def chineseCounterStr (c10 c100 c1000 : String) (mult : Nat) : String :=
  if mult ≤ 1 then ""
  else if mult = 10 then c10
  else if mult = 100 then c100
  else if mult = 1000 then c1000
  else "undefined"

/-- The digit loop of `Chinese.format`:
`for (; number > 0; number %= mult, mult = floor(mult / 10))` with the
digit `floor(number / mult)` and zero-elision (`zero` flag). A zero `mult`
with positive `number` cannot arise from `msdPow`. -/
def chineseLoop (digits : List String) (c10 c100 c1000 : String) :
    Nat → Nat → Bool → String
  | n, mult, zero =>
    if n = 0 then ""
    else if mult = 0 then ""
    else if n / mult = 0 then
      chineseLoop digits c10 c100 c1000 (n % mult) (mult / 10) true
    else
      (if zero then (digits.get? 0).getD "undefined" else "") ++
      ((digits.get? (n / mult)).getD "undefined") ++
      chineseCounterStr c10 c100 c1000 mult ++
      chineseLoop digits c10 c100 c1000 (n % mult) (mult / 10) false
termination_by n mult zero => mult
decreasing_by
  all_goals exact Nat.div_lt_self (by omega) (by omega)

/-- `Chinese.format`: zero yields `digits[0]` (`undefined`, hence fallback,
for an empty digit list); informal mode special-cases 10–19; otherwise the
positional loop runs from the most significant decimal place. For a
negative argument the loop guard `number > 0` fails at once and the empty
string is returned (the style wrapper never passes one). -/
def chineseFormat (formal : Bool) (digits : List String)
    (c10 c100 c1000 : String) (v : Int) : Option String :=
  if v = 0 then digits.get? 0
  else if !formal && v = 10 then some c10
  else if !formal && 10 ≤ v && v < 20 then
    some (c10 ++ ((digits.get? (v - 10).toNat).getD "undefined"))
  else if v < 0 then some ""
  else some (chineseLoop digits c10 c100 c1000 v.toNat (msdPow v.toNat) false)

/-- `Ethiopic.DIGITS`: `Array.from(' ፩፪፫፬፭፮፯፰፱፲ ፳፴፵፶፷፸፹፺')` — note the
space at index 0 and the space at index 11 (the source string has the ten
glyph `፲` at index 10, then a space). -/
def ethDigits : List String :=
  [" ", "፩", "፪", "፫", "፬", "፭", "፮", "፯",
   "፰", "፱", "፲", " ", "፳", "፴", "፵", "፶",
   "፷", "፸", "፹", "፺"]

/-- One base-100 group of `Ethiopic.format` (`group = number % 100`,
`tens = group / 10`, `ones = group % 10`): the digit glyphs unless the
group is skipped, then the odd-place separator `፻` and the even-place
separator `፼` exactly as the source appends them. -/
def ethGroupStr (inx : Nat) (number : Nat) : String :=
  (if number % 100 = 0 ∨ (number % 100 = 1 ∧ number < 100) ∨
      (number % 100 = 1 ∧ inx % 2 = 1) then ""
   else
     (if 0 < number % 100 / 10 then
       (ethDigits.get? (10 + number % 100 / 10)).getD "undefined"
      else "") ++
     (if 0 < number % 100 % 10 then
       (ethDigits.get? (number % 100 % 10)).getD "undefined"
      else "")) ++
  (if number % 100 ≠ 0 ∧ inx % 2 = 1 then "፻" else "") ++
  (if inx ≠ 0 ∧ inx % 2 = 0 then "፼" else "")

/-- The grouping loop of `Ethiopic.format`
(`for (inx = 0; number > 0; ++inx, number = floor(number / 100))`,
prepending each group's string): group `inx` is emitted to the right of all
higher groups. -/
def ethLoop (inx : Nat) (n : Nat) : String :=
  if n = 0 then ""
  else ethLoop (inx + 1) (n / 100) ++ ethGroupStr inx n
termination_by n
decreasing_by
  exact Nat.div_lt_self (by omega) (by omega)

/-- `Ethiopic.format`: `1` is the single glyph `፩`; non-positive
arguments skip the loop and return `""` (the style wrapper's range keeps
them out). -/
def ethiopicFormat (v : Int) : Option String :=
  if v = 1 then some "፩"
  else some (ethLoop 0 v.toNat)

/-- `System.format`, dispatching to the variant's `format` method. -/
def CSystem.format : CSystem → Int → Option String
  | .cyclic symbols, v => cyclicFormat symbols v
  | .fixed symbols firstValue, v => fixedFormat symbols firstValue v
  | .symbolic symbols, v => symbolicFormat symbols v
  | .alphabetic symbols, v => alphabeticFormat symbols v
  | .numeric symbols, v => numericFormat symbols v
  | .additive symbols, v => additiveFormat symbols v
  | .chinese formal digits c10 c100 c1000, v =>
      chineseFormat formal digits c10 c100 c1000 v
  | .ethiopic, v => ethiopicFormat v

/-- `NegativeSymbol` of the source (`{ prefix, suffix? }`). -/
structure NegSym where
  negPre : String
  negSuf : Option String
deriving DecidableEq, Repr

/-- The padding spec (`{ length, symbol }`). -/
structure PadSpec where
  len : Int
  symbol : String
deriving DecidableEq, Repr

/-- `Style` of the source. `fallback` is `none` exactly when the JS field
holds `undefined` — which, as proved below, is the case for the default
decimal style: its creation reads the module-level `FALLBACK` variable
before that variable is assigned. -/
inductive Style where
  | mk (system : CSystem) (negative : NegSym) (range : CSRange)
      (pad : Option PadSpec) (fallback : Option Style)

def Style.system : Style → CSystem
  | .mk s _ _ _ _ => s

def Style.negative : Style → NegSym
  | .mk _ n _ _ _ => n

def Style.range : Style → CSRange
  | .mk _ _ r _ _ => r

def Style.pad : Style → Option PadSpec
  | .mk _ _ _ p _ => p

def Style.fallback : Style → Option Style
  | .mk _ _ _ _ f => f

/-- `Style.formatNumber`: strip the sign, test `|value|` against the range,
format via the system, pad, re-apply the sign decoration; delegate `value`
to the fallback style when out of range or unrepresentable. A style whose
chain dead-ends (only reachable for the decimal style, which never
delegates) would crash JS dereferencing `undefined`; that is `none`. -/
def Style.formatNumber : Style → Int → Option String
  | .mk system negative range pad fallback, value =>
    let number := if value < 0 then |value| else value
    if outOfRange range number then
      match fallback with
      | some f => f.formatNumber value
      | none => none
    else
      match system.format number with
      | none =>
        match fallback with
        | some f => f.formatNumber value
        | none => none
      | some formatted =>
        let padded :=
          match pad with
          | none => formatted
          | some p =>
            let room := p.len - (formatted.length : Int) -
              (if value < 0 then
                (negative.negPre.length : Int) +
                  (((negative.negSuf.map String.length).getD 0 : Nat) : Int)
               else 0)
            if 0 < room then strRepeat p.symbol room.toNat ++ formatted
            else formatted
        some (if value < 0 then
                negative.negPre ++ padded ++ negative.negSuf.getD ""
              else padded)

/-- `Style.format` on a single number (the only overload the claims use). -/
def Style.format (s : Style) (v : Int) : Option String :=
  s.formatNumber v

/-- The `Style` constructor / `Style.create`: `negative` defaults to a bare
`"-"` prefix, the range endpoints default through `||` to the system's
(so an explicit `0` endpoint is discarded as falsy, exactly as in JS), and
`fallback` defaults through `||` to the module-level `FALLBACK` variable,
whose value **at the moment of the call** is passed as `fallbackVar` —
`none` (undefined) while the decimal style itself is being created. -/
def styleCreate (system : CSystem) (negative : Option NegSym)
    (rangeMin rangeMax : Option XBound) (pad : Option PadSpec)
    (fallback : Option Style) (fallbackVar : Option Style) : Style :=
  Style.mk system
    (negative.getD ⟨"-", none⟩)
    ⟨jsOrBound rangeMin system.range.min, jsOrBound rangeMax system.range.max⟩
    pad
    (match fallback with
     | some f => some f
     | none => fallbackVar)

/-- `Array.from` on a string: its code points as one-character strings. -/
def strChars (s : String) : List String :=
  s.data.map fun c => String.mk [c]

/-- The `zip` generator of the source, stopping at the shorter input
(`List.zip` truncates identically). -/
def zipW (ws : List Int) (ss : List String) : List (Int × String) :=
  List.zip ws ss

/-! ### The built-in styles (module-level constants of the source)

`FALLBACK` is created first; at that moment the module-level `FALLBACK`
variable is still undefined, so `fallbackVar := none` for it and
`some FALLBACK` for every later style. -/

/-- The default decimal style (`FALLBACK = Style.create({system: 'numeric',
symbols: '0123456789', fallback: null})`). The `fallback: null` option is
falsy, so the constructor reads the not-yet-assigned `FALLBACK` variable:
the resulting `fallback` field is undefined (`none`). -/
def FALLBACK : Style :=
  styleCreate (.numeric (strChars "0123456789")) none none none none none none

def decimal_leading_zero : Style :=
  styleCreate (.numeric (strChars "0123456789")) none none none
    (some ⟨2, "0"⟩) none (some FALLBACK)

def arabic_indic : Style :=
  styleCreate (.numeric (strChars "٠١٢٣٤٥٦٧٨٩"))
    none none none none none (some FALLBACK)

def ARMENIAN_WEIGHTS : List Int :=
  [9000, 8000, 7000, 6000, 5000, 4000, 3000, 2000, 1000,
   900, 800, 700, 600, 500, 400, 300, 200, 100, 90, 80, 70, 60, 50, 40, 30, 20,
   10, 9, 8, 7, 6, 5, 4, 3, 2, 1]

def armenian : Style :=
  styleCreate
    (.additive (zipW ARMENIAN_WEIGHTS (strChars "ՔՓՒՑՐՏՎՍՌՋՊՉՈՇՆՅՄՃՂՁՀԿԾԽԼԻԺԹԸԷԶԵԴԳԲԱ")))
    none (some (.fin 1)) (some (.fin 9999)) none none (some FALLBACK)

def lower_armenian : Style :=
  styleCreate
    (.additive (zipW ARMENIAN_WEIGHTS (strChars "քփւցրտվսռջպչոշնյմճղձհկծխլիժթըէզեդգբա")))
    none (some (.fin 1)) (some (.fin 9999)) none none (some FALLBACK)

def bengali : Style :=
  styleCreate (.numeric (strChars "০১২৩৪৫৬৭৮৯"))
    none none none none none (some FALLBACK)

def cambodian : Style :=
  styleCreate (.numeric (strChars "០១២៣៤៥៦៧៨៩"))
    none none none none none (some FALLBACK)

def cjk_decimal : Style :=
  styleCreate (.numeric (strChars "〇一二三四五六七八九"))
    none (some (.fin 0)) (some .posInf) none none (some FALLBACK)

def devanagari : Style :=
  styleCreate (.numeric (strChars "०१२३४५६७८९"))
    none none none none none (some FALLBACK)

def georgian : Style :=
  styleCreate
    (.additive (zipW
      [10000, 9000, 8000, 7000, 6000, 5000, 4000, 3000, 2000, 1000, 900, 800,
       700, 600, 500, 400, 300, 200, 100, 90, 80, 70, 60, 50, 40, 30, 20,
       10, 9, 8, 7, 6, 5, 4, 2, 1]
      (strChars "ჵჰჯჴხჭწძცჩშყღქფჳტსრჟპოჲნმლკითჱზვედგბა")))
    none (some (.fin 1)) (some (.fin 19999)) none none (some FALLBACK)

def gujarati : Style :=
  styleCreate (.numeric (strChars "૦૧૨૩૪૫૬૭૮૯"))
    none none none none none (some FALLBACK)

def gurmukhi : Style :=
  styleCreate (.numeric (strChars "੦੧੨੩੪੫੬੭੮੯"))
    none none none none none (some FALLBACK)

def hebrew : Style :=
  styleCreate
    (.additive (zipW
      [10000, 9000, 8000, 7000, 6000, 5000, 4000, 3000, 2000, 1000, 400, 300,
       200, 100, 90, 80, 70, 60, 50, 40, 30, 20, 19, 18, 17, 16, 15, 10, 9,
       8, 7, 6, 5, 4, 3, 2, 1]
      ["י׳", "ט׳", "ח׳", "ז׳",
       "ו׳", "ה׳", "ד׳", "ג׳",
       "ב׳", "א׳", "ת", "ש", "ר",
       "ק", "צ", "פ", "ע", "ס", "נ",
       "מ", "ל", "כ", "יט", "יח",
       "יז", "טז", "טו", "י", "ט",
       "ח", "ז", "ו", "ה", "ד", "ג",
       "ב", "א"]))
    none (some (.fin 1)) (some (.fin 10999)) none none (some FALLBACK)

def kannada : Style :=
  styleCreate (.numeric (strChars "೦೧೨೩೪೫೬೭೮೯"))
    none none none none none (some FALLBACK)

def lao : Style :=
  styleCreate (.numeric (strChars "໐໑໒໓໔໕໖໗໘໙"))
    none none none none none (some FALLBACK)

def malayalam : Style :=
  styleCreate (.numeric (strChars "൦൧൨൩൪൫൬൭൮൯"))
    none none none none none (some FALLBACK)

def mongolian : Style :=
  styleCreate (.numeric (strChars "᠐᠑᠒᠓᠔᠕᠖᠗᠘᠙"))
    none none none none none (some FALLBACK)

def myanmar : Style :=
  styleCreate (.numeric (strChars "၀၁၂၃၄၅၆၇၈၉"))
    none none none none none (some FALLBACK)

def oriya : Style :=
  styleCreate (.numeric (strChars "୦୧୨୩୪୫୬୭୮୯"))
    none none none none none (some FALLBACK)

def persian : Style :=
  styleCreate (.numeric (strChars "۰۱۲۳۴۵۶۷۸۹"))
    none none none none none (some FALLBACK)

def ROMAN_WEIGHTS : List Int :=
  [1000, 900, 500, 400, 100, 90, 50, 40, 10, 9, 5, 4, 1]

def lower_roman : Style :=
  styleCreate
    (.additive (zipW ROMAN_WEIGHTS
      ["m", "cm", "d", "cd", "c", "xc", "l", "xl", "x", "ix", "v", "iv", "i"]))
    none (some (.fin 1)) (some (.fin 3999)) none none (some FALLBACK)

def upper_roman : Style :=
  styleCreate
    (.additive (zipW ROMAN_WEIGHTS
      ["M", "CM", "D", "CD", "C", "XC", "L", "XL", "X", "IX", "V", "IV", "I"]))
    none (some (.fin 1)) (some (.fin 3999)) none none (some FALLBACK)

def tamil : Style :=
  styleCreate (.numeric (strChars "௦௧௨௩௪௫௬௭௮௯"))
    none none none none none (some FALLBACK)

def telugu : Style :=
  styleCreate (.numeric (strChars "౦౧౨౩౪౫౬౭౮౯"))
    none none none none none (some FALLBACK)

def thai : Style :=
  styleCreate (.numeric (strChars "๐๑๒๓๔๕๖๗๘๙"))
    none none none none none (some FALLBACK)

def tibetan : Style :=
  styleCreate (.numeric (strChars "༠༡༢༣༤༥༦༧༨༩"))
    none none none none none (some FALLBACK)

def lower_alpha : Style :=
  styleCreate (.alphabetic (strChars "abcdefghijklmnopqrstuvwxyz"))
    none none none none none (some FALLBACK)

def upper_alpha : Style :=
  styleCreate (.alphabetic (strChars "ABCDEFGHIJKLMNOPQRSTUVWXYZ"))
    none none none none none (some FALLBACK)

def lower_greek : Style :=
  styleCreate (.alphabetic (strChars "αβγδεζηθικλμνξοπρστυφχψω"))
    none none none none none (some FALLBACK)

def hiragana : Style :=
  styleCreate (.alphabetic (strChars "あいうえおかきくけこさしすせそたちつてとなにぬねのはひふへほまみむめもやゆよらりるれろわゐゑをん"))
    none none none none none (some FALLBACK)

def hiragana_iroha : Style :=
  styleCreate (.alphabetic (strChars "いろはにほへとちりぬるをわかよたれそつねならむうゐのおくやまけふこえてあさきゆめみしゑひもせす"))
    none none none none none (some FALLBACK)

def katakana : Style :=
  styleCreate (.alphabetic (strChars "アイウエオカキクケコサシスセソタチツテトナニヌネノハヒフヘホマミムメモヤユヨラリルレロワヰヱヲン"))
    none none none none none (some FALLBACK)

def katakana_iroha : Style :=
  styleCreate (.alphabetic (strChars "イロハニホヘトチリヌルヲワカヨタレソツネナラムウヰノオクヤマケフコエテアサキユメミシヱヒモセス"))
    none none none none none (some FALLBACK)

def disc : Style :=
  styleCreate (.cyclic (strChars "•")) none none none none none (some FALLBACK)

def circle : Style :=
  styleCreate (.cyclic (strChars "◦")) none none none none none (some FALLBACK)

def square : Style :=
  styleCreate (.cyclic (strChars "◾")) none none none none none (some FALLBACK)

def cjk_earthly_branch : Style :=
  styleCreate (.fixed (strChars "子丑寅卯辰巳午未申酉") 1)
    none none none none none (some FALLBACK)

def cjk_heavenly_stem : Style :=
  styleCreate (.fixed (strChars "甲乙丙丁戊己庚辛壬癸") 1)
    none none none none none (some FALLBACK)

def JAPANESE_WEIGHTS : List Int :=
  [9000, 8000, 7000, 6000, 5000, 4000, 3000, 2000, 1000,
   900, 800, 700, 600, 500, 400, 300, 200, 100, 90, 80, 70, 60, 50, 40, 30, 20,
   10, 9, 8, 7, 6, 5, 4, 3, 2, 1]

/-- Shared options of the two japanese styles: additive system, range
−9999..9999, a "マイナス" negative prefix and the cjk-decimal fallback.
NOTE: the weight list has 36 entries but both symbol lists have 37 — `zip`
silently drops the final zero symbol, so neither japanese style has a
zero-weight entry. -/
def japanese_informal : Style :=
  styleCreate
    (.additive (zipW JAPANESE_WEIGHTS
      ["九千", "八千",
       "七千", "六千", "五千", "四千",
       "三千", "二千", "千", "九百",
       "八百", "七百", "六百", "五百",
       "四百", "三百", "二百", "百",
       "九十", "八十", "七十", "六十",
       "五十", "四十", "三十", "二十",
       "十", "九", "八", "七", "六", "五", "四",
       "三", "二", "一", "〇"]))
    (some ⟨"マイナス", none⟩)
    (some (.fin (-9999))) (some (.fin 9999)) none
    (some cjk_decimal) (some FALLBACK)

def japanese_formal : Style :=
  styleCreate
    (.additive (zipW JAPANESE_WEIGHTS
      ["九阡", "八阡",
       "七阡", "六阡", "伍阡", "四阡",
       "参阡", "弐阡", "壱阡", "九百",
       "八百", "七百", "六百", "伍百",
       "四百", "参百", "弐百", "壱百",
       "九拾", "八拾", "七拾", "六拾",
       "伍拾", "四拾", "参拾", "弐拾",
       "壱拾", "九", "八", "七", "六", "伍",
       "四", "参", "弐", "壱", "零"]))
    (some ⟨"マイナス", none⟩)
    (some (.fin (-9999))) (some (.fin 9999)) none
    (some cjk_decimal) (some FALLBACK)

def KOREAN_WEIGHTS : List Int :=
  [9000, 8000, 7000, 6000, 5000, 4000, 3000, 2000, 1000,
   900, 800, 700, 600, 500, 400, 300, 200, 100, 90, 80, 70, 60, 50, 40, 30, 20,
   10, 9, 8, 7, 6, 5, 4, 3, 2, 1, 0]

def korean_hangul_formal : Style :=
  styleCreate
    (.additive (zipW KOREAN_WEIGHTS
      ["구천", "팔천", "칠천",
       "육천", "오천", "사천", "삼천",
       "이천", "일천", "구백", "팔백",
       "칠백", "육백", "오백", "사백",
       "삼백", "이백", "일백", "구십",
       "팔십", "칠십", "육십", "오십",
       "사십", "삼십", "이십", "일십",
       "구", "팔", "칠", "육", "오", "사", "삼",
       "이", "일", "영"]))
    (some ⟨"마이너스 ", none⟩)
    (some (.fin (-9999))) (some (.fin 9999)) none none (some FALLBACK)

def korean_hanja_informal : Style :=
  styleCreate
    (.additive (zipW KOREAN_WEIGHTS
      ["九千", "八千", "七千",
       "六千", "五千", "四千", "三千",
       "二千", "千", "九百", "八百", "七百",
       "六百", "五百", "四百", "三百",
       "二百", "百", "九十", "八十", "七十",
       "六十", "五十", "四十", "三十",
       "二十", "十", "九", "八", "七", "六",
       "五", "四", "三", "二", "一", "零"]))
    (some ⟨"마이너스 ", none⟩)
    (some (.fin (-9999))) (some (.fin 9999)) none none (some FALLBACK)

def korean_hanja_formal : Style :=
  styleCreate
    (.additive (zipW KOREAN_WEIGHTS
      ["九仟", "八仟", "七仟",
       "六仟", "五仟", "四仟", "參仟",
       "貳仟", "壹仟", "九百", "八百",
       "七百", "六百", "五百", "四百",
       "參百", "貳百", "壹百", "九拾",
       "八拾", "七拾", "六拾", "五拾",
       "四拾", "參拾", "貳拾", "壹拾",
       "九", "八", "七", "六", "五", "四", "參",
       "貳", "壹", "零"]))
    (some ⟨"마이너스 ", none⟩)
    (some (.fin (-9999))) (some (.fin 9999)) none none (some FALLBACK)

def simp_chinese_informal : Style :=
  styleCreate
    (.chinese false (strChars "零一二三四五六七八九")
      "十" "百" "千")
    (some ⟨"负", none⟩) none none none (some cjk_decimal) (some FALLBACK)

def simp_chinese_formal : Style :=
  styleCreate
    (.chinese true (strChars "零壹贰凁肆伍陆柒捌玖")
      "拾" "佰" "仟")
    (some ⟨"负", none⟩) none none none (some cjk_decimal) (some FALLBACK)

def trad_chinese_informal : Style :=
  styleCreate
    (.chinese false (strChars "零一二三四五六七八九")
      "十" "百" "千")
    (some ⟨"負", none⟩) none none none (some cjk_decimal) (some FALLBACK)

def trad_chinese_formal : Style :=
  styleCreate
    (.chinese true (strChars "零壹貳參肆伍陸柒捌玖")
      "拾" "佰" "仟")
    (some ⟨"負", none⟩) none none none (some cjk_decimal) (some FALLBACK)

def ethiopic_numeric : Style :=
  styleCreate .ethiopic none none none none none (some FALLBACK)

/-- The exported `Styles` registry, every name-to-style entry of the
source's export object (aliases included, in source order). -/
def Styles : List (String × Style) :=
  [("armenian", armenian), ("bengali", bengali), ("cambodian", cambodian),
   ("devanagari", devanagari), ("georgian", georgian), ("gujarati", gujarati),
   ("gurmukhi", gurmukhi), ("hebrew", hebrew), ("kannada", kannada),
   ("lao", lao), ("malayalam", malayalam), ("mongolian", mongolian),
   ("myanmar", myanmar), ("oriya", oriya), ("persian", persian),
   ("tamil", tamil), ("telugu", telugu), ("thai", thai), ("tibetan", tibetan),
   ("hiragana", hiragana), ("katakana", katakana), ("disc", disc),
   ("circle", circle), ("square", square),
   ("decimal", FALLBACK),
   ("decimal-leading-zero", decimal_leading_zero),
   ("arabic-indic", arabic_indic),
   ("upper-armenian", armenian),
   ("lower-armenian", lower_armenian),
   ("khmer", cambodian),
   ("cjk-decimal", cjk_decimal),
   ("lower-roman", lower_roman),
   ("upper-roman", upper_roman),
   ("lower-alpha", lower_alpha),
   ("upper-alpha", upper_alpha),
   ("lower-latin", lower_alpha),
   ("upper-latin", upper_alpha),
   ("hiragana-iroha", hiragana_iroha),
   ("katakana-iroha", katakana_iroha),
   ("cjk-earthly-branch", cjk_earthly_branch),
   ("cjk-heavenly-stem", cjk_heavenly_stem),
   ("lower-greek", lower_greek),
   ("japanese-formal", japanese_formal),
   ("japanese-informal", japanese_informal),
   ("korean-hangul-formal", korean_hangul_formal),
   ("korean-hanja-informal", korean_hanja_informal),
   ("korean-hanja-formal", korean_hanja_formal),
   ("simp-chinese-informal", simp_chinese_informal),
   ("simp-chinese-formal", simp_chinese_formal),
   ("trad-chinese-informal", trad_chinese_informal),
   ("trad-chinese-formal", trad_chinese_formal),
   ("ethiopic-numeric", ethiopic_numeric)]

/-- A style that formats every integer by itself: unbounded range and a
numeric system with at least two symbols (the shape of the decimal and
cjk-decimal styles; a single-symbol numeric system would make the JS digit
loop diverge, so it is not accepted here). -/
def Style.selfTotal : Style → Bool
  | .mk (.numeric syms) _ ⟨.negInf, .posInf⟩ _ _ => decide (2 ≤ syms.length)
  | _ => false

/-- A style whose fallback chain reaches a self-total style. Every style
constructible through the library satisfies this: an explicit fallback is
a previously constructed style and the default is the decimal style. -/
def Style.safeB : Style → Bool
  | .mk system negative range pad fallback =>
    Style.selfTotal (.mk system negative range pad fallback) ||
      (match fallback with
       | some f => f.safeB
       | none => false)

/-- What claim C2 requires of a registry entry, after amendment: the
fallback chain terminates, a value whose magnitude is out of range is
delegated unchanged to the fallback style, and a value whose magnitude is
in range formats to a non-empty string — except that the two japanese
styles format the value 0 to the empty string (their `zip`-truncated
symbol lists have no zero-weight entry). -/
def StyleOK (nm : String) (s : Style) : Prop :=
  s.safeB = true
  ∧ (∀ v : Int, outOfRange s.range |v| = true →
      ∃ f, s.fallback = some f ∧ s.formatNumber v = f.formatNumber v)
  ∧ (∀ v : Int, outOfRange s.range |v| = false →
      ∃ str, s.formatNumber v = some str ∧
        (str = "" → (nm = "japanese-formal" ∨ nm = "japanese-informal") ∧
          v = 0))


/-! ## The counter propagation engine (`src/src/observer.ts`)

The host DOM is modelled as a flat table of nodes in document (preorder)
order, each entry carrying the node's parent; the DOM navigation
primitives the engine consumes (`parentElement`, `previousSibling`,
`nextSibling`, `firstChild`, `hasChildNodes`, `compareDocumentPosition`)
are derived from that table. A JS `Map`/`WeakMap` is an insertion-ordered
association list (`set` updates an existing key in place and appends a
new one). Climbing loops take an explicit fuel argument, always called
with fuel at least the node count, which bounds every parent chain. -/

namespace Obs

abbrev NodeId := Nat

/-- An `Origin`: a real node or the virtual `::before` child of one. -/
inductive Origin where
  | node (n : NodeId)
  | before (n : NodeId)
deriving DecidableEq, Repr

/-- `Instance` of `interfaces.ts`: one entry of a counter stack. -/
structure Instance where
  origin : Origin
  value : Int
deriving DecidableEq, Repr

abbrev CounterId := Nat

/-- `Instances`: the per-counter stacks of one node, as an
insertion-ordered map. -/
abbrev Instances := List (CounterId × List Instance)

/-- `Action` of `observer.ts`. -/
structure Action where
  reset : Option Int
  increment : Option Int
  set : Option Int
deriving DecidableEq, Repr

/-- `Actions`: the per-counter action map of one node. -/
abbrev Actions := List (CounterId × Action)

/-- `Counters` of `observer.ts` (one node's instances and actions). -/
structure CountersSt where
  instances : Instances
  actions : Option Actions
deriving DecidableEq, Repr

/-- Per-node `State` of `observer.ts`. Listeners are identified by
opaque numeric ids (JS compares them by reference). -/
structure NodeState where
  counters : CountersSt
  before : Option CountersSt
  listeners : List Nat
deriving DecidableEq, Repr

/-- The `NODES` weak map. -/
abbrev Table := List (NodeId × NodeState)

/-- `createState`'s fresh value. -/
def emptyState : NodeState := ⟨⟨[], none⟩, none, []⟩

/-- JS `Map.set`: update an existing key in place, append a new one. -/
def msetI (m : Instances) (k : CounterId) (v : List Instance) : Instances :=
  if m.any (fun p => p.1 == k) then
    m.map (fun p => if p.1 == k then (k, v) else p)
  else m ++ [(k, v)]

/-- `NODES.set` (and in-place mutation of a stored state record). -/
def tset (T : Table) (k : NodeId) (v : NodeState) : Table :=
  if T.any (fun p => p.1 == k) then
    T.map (fun p => if p.1 == k then (k, v) else p)
  else T ++ [(k, v)]

/-- The host document: nodes in document (preorder) order with their
parents (`none` only for the document's top container). -/
structure Doc where
  nodes : List (NodeId × Option NodeId)
deriving DecidableEq, Repr

def Doc.ids (d : Doc) : List NodeId := d.nodes.map Prod.fst

def Doc.parentOf (d : Doc) (n : NodeId) : Option NodeId :=
  (List.lookup n d.nodes).getD none

def Doc.childIds (d : Doc) (p : NodeId) : List NodeId :=
  (d.nodes.filter (fun q => q.2 == some p)).map Prod.fst

/-- A node's position in document order. -/
def Doc.posOf (d : Doc) (n : NodeId) : Nat := d.ids.indexOf n

/-- `isBefore(a, b)` — `compareDocumentPosition` reports `a` preceding
`b` in document order. -/
def isBefore (d : Doc) (a b : NodeId) : Bool :=
  decide (d.posOf a < d.posOf b)

/-- The previous entry in an ordered sibling list. -/
def prevIn : List NodeId → NodeId → Option NodeId
  | a :: b :: rest, x => if b = x then some a else prevIn (b :: rest) x
  | _, _ => none

/-- The next entry in an ordered sibling list. -/
def nextIn : List NodeId → NodeId → Option NodeId
  | a :: b :: rest, x => if a = x then some b else nextIn (b :: rest) x
  | _, _ => none

def Doc.prevSibling (d : Doc) (n : NodeId) : Option NodeId :=
  match d.parentOf n with
  | none => none
  | some p => prevIn (d.childIds p) n

def Doc.nextSibling (d : Doc) (n : NodeId) : Option NodeId :=
  match d.parentOf n with
  | none => none
  | some p => nextIn (d.childIds p) n

def Doc.firstChild (d : Doc) (n : NodeId) : Option NodeId :=
  (d.childIds n).head?

def Doc.lastChild (d : Doc) (n : NodeId) : Option NodeId :=
  (d.childIds n).getLast?

/-- The climb phase of `next`: try the node's next sibling, else move to
the parent, stopping with `null` at a tracked root. (In the source the
`ROOTS.has` test runs against the root set; the engine claims concern a
single tracked root. A parent chain that ends without meeting the root
would crash the source on `null.nextSibling`; it returns `none` here and
is never reached from nodes inside the tracked subtree.) -/
def climbNext (d : Doc) (root : NodeId) : Nat → NodeId → Option NodeId
  | 0, _ => none
  | fuel + 1, m =>
    match d.nextSibling m with
    | some s => some s
    | none =>
      match d.parentOf m with
      | some p => if p = root then none else climbNext d root fuel p
      | none => none

/-- `next(node, children)`: first child when descending is allowed,
otherwise the climb. -/
def next (d : Doc) (root : NodeId) (n : NodeId) (children : Bool) :
    Option NodeId :=
  if children && !(d.childIds n).isEmpty then d.firstChild n
  else climbNext d root d.ids.length n

/-- The `while (n.hasChildNodes()) n = n.lastChild` loop of `prev`. -/
def deepLast (d : Doc) : Nat → NodeId → NodeId
  | 0, n => n
  | fuel + 1, n =>
    match d.lastChild n with
    | none => n
    | some k => deepLast d fuel k

/-- `prev(node)`: the deepest last descendant of the previous sibling,
else the parent (`none` models the `null` dereference the source would
hit for a detached top node; unreachable for walked nodes). -/
def prev (d : Doc) (n : NodeId) : Option NodeId :=
  match d.prevSibling n with
  | some s => some (deepLast d d.ids.length s)
  | none => d.parentOf n

/-- `getState` without the write-back: the source creates and stores an
empty state for a missing node; the created state is empty, so reads
through it are the reads of `emptyState` (the table write is performed by
the sweep step itself). -/
def stateOf (T : Table) (n : NodeId) : NodeState :=
  (List.lookup n T).getD emptyState

/-- `getCounterSource`. -/
def getCounterSource (d : Doc) (T : Table) (n : NodeId) : Instances :=
  match d.prevSibling n with
  | some s => (stateOf T s).counters.instances
  | none =>
    match d.parentOf n with
    | none => []
    | some p =>
      match (stateOf T p).before with
      | some b => b.instances
      | none => (stateOf T p).counters.instances

/-- `getValueSource`. -/
def getValueSource (d : Doc) (T : Table) (n : NodeId) : Instances :=
  match prev d n with
  | none => []
  | some p =>
    if d.parentOf n = some p then
      match (stateOf T p).before with
      | some b => b.instances
      | none => (stateOf T p).counters.instances
    else (stateOf T p).counters.instances

/-- The inheritance loop body: keep the common prefix of the value-source
and counter-source stacks while origins match pairwise, copying the
value-source values. -/
def commonPrefix : List Instance → List Instance → List Instance
  | a :: as, b :: bs =>
    if a.origin = b.origin then ⟨a.origin, a.value⟩ :: commonPrefix as bs
    else []
  | _, _ => []

/-- The `// Inherit counters` loop of `processCounters`: iterate the
value source, skip counters absent from the counter source, store
non-empty common prefixes. -/
def inheritAll (valueSrc counterSrc : Instances) : Instances :=
  valueSrc.foldl
    (fun acc p =>
      match List.lookup p.1 counterSrc with
      | none => acc
      | some ic =>
        if 0 < (commonPrefix p.2 ic).length then
          acc ++ [(p.1, commonPrefix p.2 ic)]
        else acc)
    []

/-- `a.parentElement` evaluated on an origin: a before-pseudo is a plain
`{ before: node }` object with no `parentElement` property. -/
def originParent (d : Doc) : Origin → Option NodeId
  | .node n => d.parentOf n
  | .before _ => none

/-- `isSibling(a, b)` of the source: compare `a.parentElement` with
`b.parentElement` (real `b`) or with `b.node` (before-pseudo `b`).
(The source distinguishes `undefined` from `null` under `===` in one dead
corner — both are `none` here; the only call site is guarded by the
constant-false `jsNotIsBefore` below, so the distinction is never
observable.) -/
def isSibling (d : Doc) (a : Origin) (b : Origin) : Bool :=
  match b with
  | .node bn => originParent d a == d.parentOf bn
  | .before bn => originParent d a == some bn

/-- The left operand of `!isBefore && isSibling(last.origin, origin)` at
`observer.ts:344`: `isBefore` there denotes the **function** `isBefore`
itself — the call parentheses are missing — and a JS function object is
always truthy, so its negation is the constant `false` and the sibling
disjunct of the reset rule can never fire. -/
def jsNotIsBefore : Bool := false

/-- `instances[instances.length - 1]`; every call site passes a non-empty
list (the action loop creates `[{origin, value: 0}]` first), so the
default is never read. -/
def jsLastInstance (l : List Instance) : Instance :=
  l.getLast?.getD ⟨.node 0, 0⟩

/-- In-place mutation of the last stack entry (`last.value += …`). -/
def modifyLast (l : List Instance) (f : Instance → Instance) :
    List Instance :=
  match l.getLast? with
  | none => l
  | some x => l.dropLast ++ [f x]

/-- The per-counter action application of `processCounters`: `reset`
pushes a new instance, popping the current top exactly when the source's
pop condition holds; `increment` and `set` then mutate the top entry. -/
def performActions (d : Doc) (origin : Origin) (acts : Action)
    (instances : List Instance) : List Instance :=
  let afterReset :=
    match acts.reset with
    | none => instances
    | some r =>
      (if (jsLastInstance instances).origin == origin ||
          (jsNotIsBefore &&
            isSibling d (jsLastInstance instances).origin origin) then
        instances.dropLast
       else instances) ++ [⟨origin, r⟩]
  let afterInc :=
    match acts.increment with
    | none => afterReset
    | some inc => modifyLast afterReset (fun i => ⟨i.origin, i.value + inc⟩)
  match acts.set with
  | none => afterInc
  | some v => modifyLast afterInc (fun i => ⟨i.origin, v⟩)

/-- The `// Perform actions on counters` loop: per listed counter, act on
its inherited stack, creating `[{origin, value: 0}]` when absent. -/
def runActions (d : Doc) (origin : Origin) (actions : Actions)
    (counters : Instances) : Instances :=
  actions.foldl
    (fun cs p =>
      match List.lookup p.1 cs with
      | none => msetI cs p.1 (performActions d origin p.2 [⟨origin, 0⟩])
      | some instances => msetI cs p.1 (performActions d origin p.2 instances))
    counters

/-- `compareInstances`: structural equality of two stacks over
`(origin, value)` pairs. -/
def compareInstances : List Instance → List Instance → Bool
  | [], [] => true
  | x :: xs, y :: ys =>
    x.origin == y.origin && x.value == y.value && compareInstances xs ys
  | _, _ => false

/-- The change detection at the end of `processCounters`: some new
counter is missing from, or differs from, the old state, or some old
counter is no longer present. -/
def instancesChanged (newI oldI : Instances) : Bool :=
  (newI.any fun p =>
    match List.lookup p.1 oldI with
    | none => true
    | some old => !(compareInstances p.2 old)) ||
  (oldI.any fun p => !(newI.any fun q => q.1 == p.1))

/-- `processCounters`: inherit, act, detect change, store the new map. -/
def processCounters (d : Doc) (origin : Origin) (st : CountersSt)
    (counterSrc valueSrc : Instances) : Bool × CountersSt :=
  (instancesChanged
      (runActions d origin (st.actions.getD [])
        (inheritAll valueSrc counterSrc))
      st.instances,
   ⟨runActions d origin (st.actions.getD [])
      (inheritAll valueSrc counterSrc),
    st.actions⟩)

/-- `processBefore`: nothing without a `::before` state; a removed
`::before` (no actions) is deleted and counts as a change; otherwise the
before-pseudo-node is processed with the owner's **just-resolved**
instances as both sources. -/
def processBefore (d : Doc) (n : NodeId) (ownerCounters : CountersSt)
    (beforeSt : Option CountersSt) : Bool × Option CountersSt :=
  match beforeSt with
  | none => (false, none)
  | some b =>
    match b.actions with
    | none => (true, none)
    | some _ =>
      ((processCounters d (.before n) b ownerCounters.instances
          ownerCounters.instances).1,
       some (processCounters d (.before n) b ownerCounters.instances
          ownerCounters.instances).2)

/-- The outcome of one iteration of `update`'s walk body. -/
structure StepOut where
  table : Table
  notifs : List (Nat × Instances)
  changed : Bool
deriving DecidableEq, Repr

/-- One iteration of the walk body of `update`: resolve the node
(creating state if absent — that alone counts as changed), notify the
node's listeners when its own counters changed, then process its
before-pseudo-node. -/
def stepNode (d : Doc) (T : Table) (n : NodeId) : StepOut :=
  let st := stateOf T n
  let ch0 := (List.lookup n T).isNone
  let pc := processCounters d (.node n) st.counters (getCounterSource d T n)
    (getValueSource d T n)
  let pb := processBefore d n pc.2 st.before
  { table := tset T n ⟨pc.2, pb.2, st.listeners⟩
    notifs :=
      if pc.1 || ch0 then st.listeners.map (fun l => (l, pc.2.instances))
      else []
    changed := (pc.1 || ch0) || pb.1 }

/-- The walk `for (; node != null; node = next(node))` with its early
break on an unchanged node. Returns the final table, the emitted
notifications, and the value of the loop variable on exit (`none` when
the loop ran off the end of the subtree). Fuel bounds the walk length;
every call passes more fuel than there are document nodes. -/
def walk (d : Doc) (root : NodeId) :
    Nat → Option NodeId → Table →
      Table × List (Nat × Instances) × Option NodeId
  | _, none, T => (T, [], none)
  | 0, some n, T => (T, [], some n)
  | fuel + 1, some n, T =>
    if !(stepNode d T n).changed then
      ((stepNode d T n).table, (stepNode d T n).notifs, some n)
    else
      ((walk d root fuel (next d root n true) (stepNode d T n).table).1,
       (stepNode d T n).notifs ++
         (walk d root fuel (next d root n true) (stepNode d T n).table).2.1,
       (walk d root fuel (next d root n true) (stepNode d T n).table).2.2)

/-- The dirty-queue pruning after a walk: drop queued nodes at or before
the last visited node. (When the walk ran off the end the source would
crash calling `compareDocumentPosition` on `null`; the dist build prunes
everything there; no theorem below reaches that branch.) -/
def pruneDirty (d : Doc) (dirty : List NodeId) (qlast : Option NodeId) :
    List NodeId :=
  match qlast with
  | some m => dirty.dropWhile (fun x => isBefore d x m || x == m)
  | none => dirty.dropWhile (fun _ => true)

/-- The outer `while (dirty.length > 0)` loop of `update`. Fuel bounds
the iteration count; each iteration consumes at least the head of the
queue, so the queue length suffices. -/
def updateLoop (d : Doc) (root : NodeId) :
    Nat → List NodeId → Table → Table × List (Nat × Instances)
  | _, [], T => (T, [])
  | 0, _, T => (T, [])
  | fuel + 1, n :: rest, T =>
    ((updateLoop d root fuel
        (pruneDirty d rest (walk d root (d.ids.length + 1) (some n) T).2.2)
        (walk d root (d.ids.length + 1) (some n) T).1).1,
     (walk d root (d.ids.length + 1) (some n) T).2.1 ++
       (updateLoop d root fuel
         (pruneDirty d rest (walk d root (d.ids.length + 1) (some n) T).2.2)
         (walk d root (d.ids.length + 1) (some n) T).1).2)

/-- `update(dirty)`: sort the dirty nodes in document order and run the
queue. -/
def update (d : Doc) (root : NodeId) (dirty : List NodeId) (T : Table) :
    Table × List (Nat × Instances) :=
  updateLoop d root (dirty.length + 1)
    (dirty.mergeSort (fun a b => d.posOf a ≤ d.posOf b)) T

/-- `observe(node, notify)`: register the listener and synchronously
notify it once with the node's current instances (an empty map when the
node had no state — `getState` creates one). Returns the updated table
and the notifications emitted during the call. -/
def observe (T : Table) (n : NodeId) (lid : Nat) :
    Table × List (Nat × Instances) :=
  (tset T n ⟨(stateOf T n).counters, (stateOf T n).before,
     (stateOf T n).listeners ++ [lid]⟩,
   [(lid, (stateOf T n).counters.instances)])

/-- `Array.findIndex` on listener ids: `-1` when absent. -/
def jsFindIndex (l : List Nat) (x : Nat) : Int :=
  match l.findIdx? (fun y => y == x) with
  | some i => (i : Int)
  | none => -1

/-- `Array.splice(start, 1)`: a negative `start` counts from the end of
the array (so `splice(-1, 1)` removes the **last** element of a
non-empty array), and nothing is removed past the end. -/
def jsSpliceRemove1 (l : List Nat) (start : Int) : List Nat :=
  if h : start < 0 then
    if (l.length : Int) + start < 0 then
      if l.isEmpty then l else l.eraseIdx 0
    else l.eraseIdx ((l.length : Int) + start).toNat
  else
    if start < (l.length : Int) then l.eraseIdx start.toNat else l

/-- The teardown closure returned by `observe`:
`splice(listeners.findIndex(n => n === notify), 1)`. On a second call the
listener is gone, `findIndex` yields `-1`, and `splice(-1, 1)` removes
whichever listener is currently last. -/
def unobserveTeardown (listeners : List Nat) (lid : Nat) : List Nat :=
  jsSpliceRemove1 listeners (jsFindIndex listeners lid)

/-- Translation of claim C1's replacement rule, written from the claim's
words (not from the source): the top entry is replaced exactly when its
origin is the acting node itself, or is an order-preceding sibling of the
acting node that is neither an ancestor of it nor a before-pseudo-node. -/
def c1ClaimPop (d : Doc) (fuel : Nat) (last : Instance) (origin : Origin) :
    Bool :=
  last.origin == origin ||
  (match last.origin, origin with
   | .node a, .node b =>
     d.parentOf a == d.parentOf b && a != b && isBefore d a b &&
       !(isAncestorOf d fuel a b)
   | _, _ => false)
where
  isAncestorOf (d : Doc) : Nat → NodeId → NodeId → Bool
    | 0, _, _ => false
    | fuel + 1, a, x =>
      match d.parentOf x with
      | none => false
      | some p => p == a || isAncestorOf d fuel a p

end Obs

/-! ## The per-counter registration table (`State` of `unnamed/part_004`) -/

namespace SC

/-- `Action` of `interfaces.ts`: increment by an amount, or set a
value. -/
inductive SAction where
  | increment (amount : Int)
  | set (value : Int)
deriving DecidableEq, Repr

inductive Mode where
  | managed
  | observed
deriving DecidableEq, Repr

/-- `Registration` of the `State` class. -/
structure Registration where
  node : Nat
  mode : Mode
  listeners : List Nat
  value : Int
  action : Option SAction
deriving DecidableEq, Repr

/-- The `nodes` array of the `State` class, sorted in document order.
Document order over these opaque nodes is their numeric id order
(`compareDocumentPosition` sets the PRECEDING bit exactly for a smaller
id). -/
abbrev StateC := List Registration

/-- The `findNode` binary search. NOTE: when the probe hits the node, the
source returns `start` — the current lower bound — rather than the probe
index `middle`; claim C6 exercises this. Fuel bounds the iteration count
(the interval halves each step, so `length + 1` always suffices). -/
def findNodeGo (nodes : StateC) (node : Nat) : Nat → Nat → Nat → Nat
  | 0, start, _ => start
  | fuel + 1, start, stop =>
    if start < stop then
      match nodes.get? ((start + stop) / 2) with
      | none => start
      | some reg =>
        if node = reg.node then start
        else if node < reg.node then
          findNodeGo nodes node fuel start ((start + stop) / 2)
        else findNodeGo nodes node fuel ((start + stop) / 2 + 1) stop
    else start

def findNode (nodes : StateC) (node : Nat) : Nat :=
  findNodeGo nodes node (nodes.length + 1) 0 nodes.length

/-- The value-propagation loop of `State.update` over the suffix of the
array from `start`, with its early break when a node's value is
unchanged. Returns the new suffix and the notifications emitted. -/
def updateGo : Int → List Registration → List Registration × List (Nat × Int)
  | _, [] => ([], [])
  | value, r :: rest =>
    if (match r.action with
        | some (.increment amount) => value + amount
        | some (.set v) => v
        | none => value) == r.value then
      (r :: rest, [])
    else
      ((⟨r.node, r.mode, r.listeners,
          (match r.action with
           | some (.increment amount) => value + amount
           | some (.set v) => v
           | none => value), r.action⟩ ::
        (updateGo
          (match r.action with
           | some (.increment amount) => value + amount
           | some (.set v) => v
           | none => value) rest).1),
       r.listeners.map (fun l =>
         (l, (match r.action with
              | some (.increment amount) => value + amount
              | some (.set v) => v
              | none => value))) ++
         (updateGo
           (match r.action with
            | some (.increment amount) => value + amount
            | some (.set v) => v
            | none => value) rest).2)

/-- `State.update(start)`: seed with the previous registration's value
(0 at the front) and propagate forward. -/
def update (nodes : StateC) (start : Nat) : StateC × List (Nat × Int) :=
  (nodes.take start ++
    (updateGo
      (if 0 < start then ((nodes.get? (start - 1)).map (·.value)).getD 0
       else 0)
      (nodes.drop start)).1,
   (updateGo
     (if 0 < start then ((nodes.get? (start - 1)).map (·.value)).getD 0
      else 0)
     (nodes.drop start)).2)

/-- `State.register`. The duplicate check throws (`Except.error`) before
any mutation; an existing observed registration is upgraded in place;
otherwise a new managed registration is spliced in at the found index and
values are repropagated from there. -/
def register (nodes : StateC) (node : Nat) (lid : Nat) (action : SAction) :
    Except Unit (StateC × List (Nat × Int)) :=
  match nodes.get? (findNode nodes node) with
  | some reg =>
    if reg.node = node then
      if reg.mode = .managed then .error ()
      else
        .ok (update
          (nodes.set (findNode nodes node)
            ⟨reg.node, .managed, reg.listeners ++ [lid], reg.value,
             some action⟩)
          (findNode nodes node))
    else
      .ok (update
        (nodes.insertNth (findNode nodes node)
          ⟨node, .managed, [lid], 0, some action⟩)
        (findNode nodes node))
  | none =>
    .ok (update
      (nodes.insertNth (findNode nodes node)
        ⟨node, .managed, [lid], 0, some action⟩)
      (findNode nodes node))

/-- `State.watch`: join an existing registration (immediately notifying
with its current value) or insert a fresh observed one. -/
def watch (nodes : StateC) (node : Nat) (lid : Nat) :
    StateC × List (Nat × Int) :=
  match nodes.get? (findNode nodes node) with
  | some reg =>
    if reg.node = node then
      (nodes.set (findNode nodes node)
        ⟨reg.node, reg.mode, reg.listeners ++ [lid], reg.value, reg.action⟩,
       [(lid, reg.value)])
    else
      update
        (nodes.insertNth (findNode nodes node)
          ⟨node, .observed, [lid], 0, none⟩)
        (findNode nodes node)
  | none =>
    update
      (nodes.insertNth (findNode nodes node)
        ⟨node, .observed, [lid], 0, none⟩)
      (findNode nodes node)

/-- `State.unregister(node)` (the closure returned by `register`). When
the registration is already gone, `findIndex` yields `-1`: the
`splice(-1, 1)` removes the **last** registration, and the subsequent
`update(-1)` dereferences `nodes[-1]` and throws — `Except.error`
carrying the table as mutated before the throw. -/
def unregister (nodes : StateC) (node : Nat) :
    Except StateC (StateC × List (Nat × Int)) :=
  match nodes.findIdx? (fun r => r.node == node) with
  | some index => .ok (update (nodes.eraseIdx index) index)
  | none => .error nodes.dropLast

/-- `State.unwatch(node, notify)` (the closure returned by `watch`). When
the registration is gone, `this.nodes[-1]` is `undefined` and reading
`reg.mode` throws before any mutation. A sole observed listener removes
the whole registration; otherwise the listener is spliced out — with the
same `splice(findIndex(...), 1)` pattern, so a second call for the same
listener removes whichever listener is currently last. -/
def unwatch (nodes : StateC) (node : Nat) (lid : Nat) :
    Except StateC StateC :=
  match nodes.findIdx? (fun r => r.node == node) with
  | none => .error nodes
  | some index =>
    match nodes.get? index with
    | none => .error nodes
    | some reg =>
      if reg.mode = .observed ∧ reg.listeners.length = 1 then
        .ok (nodes.eraseIdx index)
      else
        .ok (nodes.set index
          ⟨reg.node, reg.mode, Obs.unobserveTeardown reg.listeners lid,
           reg.value, reg.action⟩)

end SC


namespace Obs

/-- The owner node's just-resolved (post-action) counter state inside a
sweep step: the second component of `processCounters` run on the node
itself. -/
def nodePost (d : Doc) (T : Table) (n : NodeId) : CountersSt :=
  (processCounters d (.node n) (stateOf T n).counters
    (getCounterSource d T n) (getValueSource d T n)).2

/-- The reset rule as the code actually behaves (for the amended claim
C1): the top entry is replaced exactly when its origin is the acting
origin itself — the sibling-collapse clause is dead code. Written from
the amended specification text, to be compared with `performActions`. -/
def performActionsAmended (origin : Origin) (acts : Action)
    (instances : List Instance) : List Instance :=
  let afterReset :=
    match acts.reset with
    | none => instances
    | some r =>
      (if (jsLastInstance instances).origin == origin then
        instances.dropLast
       else instances) ++ [⟨origin, r⟩]
  let afterInc :=
    match acts.increment with
    | none => afterReset
    | some inc => modifyLast afterReset (fun i => ⟨i.origin, i.value + inc⟩)
  match acts.set with
  | none => afterInc
  | some v => modifyLast afterInc (fun i => ⟨i.origin, v⟩)

/-- Example document: a tracked root (node 0) with two element children
1 and 2. -/
def exDocSib : Doc := ⟨[(0, none), (1, some 0), (2, some 0)]⟩

/-- A single `counter-reset: c v` action map (counter id 7). -/
def exActsReset (v : Int) : Actions := [(7, ⟨some v, none, none⟩)]

/-- Both children carry a reset for the same counter, as set up by
`setActions` before any sweep. -/
def exTableSib : Table :=
  [(1, ⟨⟨[], some (exActsReset 5)⟩, none, []⟩),
   (2, ⟨⟨[], some (exActsReset 9)⟩, none, []⟩)]

/-- Example document: a tracked root (node 0) with children 1, 2, 3. -/
def exDoc3 : Doc := ⟨[(0, none), (1, some 0), (2, some 0), (3, some 0)]⟩

/-- The table of `exDoc3` as left by a completed sweep of a
`reset 0; increment 1` on node 1 and `increment 1` on nodes 2 and 3,
with one listener per child; recomputing any node reproduces its stored
state. -/
def exTable3 : Table :=
  [(0, emptyState),
   (1, ⟨⟨[(7, [⟨.node 1, 1⟩])], some [(7, ⟨some 0, some 1, none⟩)]⟩,
        none, [11]⟩),
   (2, ⟨⟨[(7, [⟨.node 1, 2⟩])], some [(7, ⟨none, some 1, none⟩)]⟩,
        none, [12]⟩),
   (3, ⟨⟨[(7, [⟨.node 1, 3⟩])], some [(7, ⟨none, some 1, none⟩)]⟩,
        none, [13]⟩)]

/-- Example document for C4: a tracked root with a single child. -/
def exDocB4 : Doc := ⟨[(0, none), (1, some 0)]⟩

/-- A `::before` action map: `counter-increment: c 2`. -/
def exActsB4 : Actions := [(7, ⟨none, some 2, none⟩)]

/-- The `::before` state of node 1: not yet resolved, increment
pending. -/
def exB4 : CountersSt := ⟨[], some exActsB4⟩

/-- Node 1 carries `counter-reset: c 3` and a `::before` with
`counter-increment: c 2`; nothing is resolved yet, so the owner's
pre-action stacks (empty) differ from its post-action stacks. -/
def exTableB4 : Table :=
  [(1, ⟨⟨[], some [(7, ⟨some 3, none, none⟩)]⟩, some exB4, []⟩)]

end Obs

/-! ### String helpers -/

theorem strLenZero (s : String) : s.length = 0 ↔ s = "" := by
  cases s with
  | mk data =>
    simp only [String.length]
    constructor
    · intro h
      have : data = [] := List.length_eq_zero.mp h
      simp [this]
    · intro h
      have : data = ([] : List Char) := by
        have := congrArg String.data h
        simpa using this
      simp [this]

theorem strAppendNeR (a b : String) (h : b ≠ "") : a ++ b ≠ "" := by
  intro hc
  have := congrArg String.length hc
  simp [String.length_append] at this
  exact h ((strLenZero b).mp this.2)

theorem strAppendNeL (a b : String) (h : a ≠ "") : a ++ b ≠ "" := by
  intro hc
  have := congrArg String.length hc
  simp [String.length_append] at this
  exact h ((strLenZero a).mp this.1)

theorem strRepeat_ne (s : String) (k : Nat) (hs : s ≠ "") (hk : 1 ≤ k) :
    strRepeat s k ≠ "" := by
  cases k with
  | zero => omega
  | succ j => exact strAppendNeL _ _ hs

/-! ### Totality of formatting along a terminating fallback chain -/

theorem numericLoop_ne (syms : List String) (h2 : 2 ≤ syms.length)
    (hs : ∀ x ∈ syms, x ≠ "") (n : Nat) (hn : n ≠ 0) :
    numericLoop syms n ≠ "" := by
  rw [numericLoop]
  simp only [hn, if_false]
  rw [dif_neg (by omega)]
  apply strAppendNeR
  have hlt : n % syms.length < syms.length := Nat.mod_lt _ (by omega)
  rcases List.get?_eq_get hlt with h
  rw [h]
  exact hs _ (List.get_mem _ _ _)

theorem numericFormat_isSome (syms : List String) (h2 : 2 ≤ syms.length)
    (v : Int) (hv : 0 ≤ v) : (numericFormat syms v).isSome = true := by
  unfold numericFormat
  by_cases h0 : v = 0
  · have hlt : 0 < syms.length := by omega
    simp [h0, List.getElem?_eq_getElem hlt]
  · have : ¬ v < 0 := by omega
    simp [h0, this]

theorem numericFormat_ne (syms : List String) (h2 : 2 ≤ syms.length)
    (hs : ∀ x ∈ syms, x ≠ "") (v : Int) (hv : 0 ≤ v) :
    ∃ s, numericFormat syms v = some s ∧ s ≠ "" := by
  unfold numericFormat
  by_cases h0 : v = 0
  · have hlt : 0 < syms.length := by omega
    refine ⟨syms.get ⟨0, hlt⟩, ?_, hs _ (List.get_mem _ _ _)⟩
    simp [h0, List.get?_eq_get hlt]
  · have hneg : ¬ v < 0 := by omega
    refine ⟨numericLoop syms v.toNat, by simp [h0, hneg], ?_⟩
    exact numericLoop_ne syms h2 hs v.toNat (by omega)

/-- The branch structure of `Style.formatNumber` when `|value|` is out of
range: the call is handed unchanged to the fallback. -/
theorem formatNumber_out (system : CSystem) (negative : NegSym)
    (range : CSRange) (pad : Option PadSpec) (fb : Option Style) (v : Int)
    (h : outOfRange range (if v < 0 then |v| else v) = true) :
    (Style.mk system negative range pad fb).formatNumber v =
      (match fb with
       | some f => f.formatNumber v
       | none => none) := by
  rw [Style.formatNumber.eq_def]
  simp only [h, if_true]

/-- When `|value|` is in range but the system reports unrepresentable, the
call is likewise handed to the fallback. -/
theorem formatNumber_sysnone (system : CSystem) (negative : NegSym)
    (range : CSRange) (pad : Option PadSpec) (fb : Option Style) (v : Int)
    (hout : outOfRange range (if v < 0 then |v| else v) = false)
    (hsys : system.format (if v < 0 then |v| else v) = none) :
    (Style.mk system negative range pad fb).formatNumber v =
      (match fb with
       | some f => f.formatNumber v
       | none => none) := by
  rw [Style.formatNumber.eq_def]
  simp only [hout, hsys, Bool.false_eq_true, if_false]

/-- When `|value|` is in range and the system formats it, the style only
decorates the system's output (pad prefix, sign prefix/suffix), so a
non-empty system output yields a non-empty final string. -/
theorem formatNumber_sysSome (system : CSystem) (negative : NegSym)
    (range : CSRange) (pad : Option PadSpec) (fb : Option Style) (v : Int)
    (str : String)
    (hout : outOfRange range (if v < 0 then |v| else v) = false)
    (hsys : system.format (if v < 0 then |v| else v) = some str) :
    ∃ t, (Style.mk system negative range pad fb).formatNumber v = some t ∧
      (str ≠ "" → t ≠ "") := by
  rw [Style.formatNumber.eq_def]
  simp only [hout, hsys, Bool.false_eq_true, if_false]
  refine ⟨_, rfl, ?_⟩
  intro hne
  have hpad : ∀ padded : String, padded ≠ "" →
      (if v < 0 then
        negative.negPre ++ padded ++ negative.negSuf.getD ""
       else padded) ≠ "" := by
    intro padded hp
    by_cases hv : v < 0
    · simp only [hv, if_true]
      exact strAppendNeL _ _ (strAppendNeR _ _ hp)
    · simpa [hv] using hp
  apply hpad
  cases pad with
  | none => exact hne
  | some p =>
    simp only
    by_cases hroom : (0 : Int) <
        p.len - (str.length : Int) -
          (if v < 0 then
            (negative.negPre.length : Int) +
              (((negative.negSuf.map String.length).getD 0 : Nat) : Int)
           else 0)
    · simp only [hroom, if_true]
      exact strAppendNeR _ _ hne
    · simp only [hroom, if_false]
      exact hne

/-- Formatting cannot fail along a terminating fallback chain: the chain's
final self-total style accepts every value. -/
theorem Style.safe_isSome : ∀ (s : Style) (v : Int), s.safeB = true →
    (s.formatNumber v).isSome = true
  | .mk system negative range pad fallback, v, h => by
    have hnum : (0 : Int) ≤ (if v < 0 then |v| else v) := by
      by_cases hv : v < 0
      · simp [hv, abs_nonneg]
      · simp [hv]; omega
    rw [Style.safeB.eq_def] at h
    rcases Bool.or_eq_true_iff.mp h with hself | hfb
    · obtain ⟨rmin, rmax⟩ := range
      cases system <;> cases rmin <;> cases rmax <;>
        simp [Style.selfTotal] at hself
      case numeric.negInf.posInf syms =>
        have hout : outOfRange ⟨XBound.negInf, XBound.posInf⟩
            (if v < 0 then |v| else v) = false := by
          simp [outOfRange, numLtBound, numGtBound]
        have := numericFormat_isSome syms hself (if v < 0 then |v| else v) hnum
        rcases Option.isSome_iff_exists.mp this with ⟨str, hstr⟩
        have hfmt : (CSystem.numeric syms).format (if v < 0 then |v| else v) =
            some str := hstr
        rcases formatNumber_sysSome (CSystem.numeric syms) negative
          ⟨XBound.negInf, XBound.posInf⟩ pad fallback v str hout hfmt with
          ⟨t, ht, _⟩
        simp [ht]
    · cases hf : fallback with
      | none => rw [hf] at hfb; simp at hfb
      | some f =>
        rw [hf] at hfb
        have ih := Style.safe_isSome f v hfb
        by_cases hout : outOfRange range (if v < 0 then |v| else v) = true
        · rw [formatNumber_out system negative range pad (some f) v hout]
          exact ih
        · have hout' : outOfRange range (if v < 0 then |v| else v) = false :=
            Bool.not_eq_true _ ▸ by simpa using hout
          cases hfmt : system.format (if v < 0 then |v| else v) with
          | none =>
            rw [formatNumber_sysnone system negative range pad (some f) v
              hout' hfmt]
            exact ih
          | some str =>
            rcases formatNumber_sysSome system negative range pad (some f) v
              str hout' hfmt with ⟨t, ht, _⟩
            simp [ht]

/-! ### The additive greedy pass -/

theorem addLoop_zero (ps : List (Int × String)) (acc : String) :
    addLoop ps 0 acc = (acc, 0) := by
  cases ps with
  | nil => rfl
  | cons p rest =>
    obtain ⟨w, s⟩ := p
    simp [addLoop]

/-- The accumulator is only ever extended on the right. -/
theorem addLoop_acc (ps : List (Int × String)) :
    ∀ (v : Int) (acc : String),
      addLoop ps v acc =
        (acc ++ (addLoop ps v "").1, (addLoop ps v "").2) := by
  induction ps with
  | nil => intro v acc; simp [addLoop]
  | cons p rest ih =>
    intro v acc
    obtain ⟨w, s⟩ := p
    by_cases hv : 0 < v
    · simp only [addLoop, hv, if_true]
      rw [ih (v - w * (v / w)) (acc ++ strRepeat s (v / w).toNat),
        ih (v - w * (v / w)) ("" ++ strRepeat s (v / w).toNat)]
      simp [String.append_assoc]
    · simp [addLoop, hv]

/-- If some listed weight is `1` and all weights are non-negative, the
greedy pass always ends with residue `0` (after the `1` entry the residue
is `0` and the loop guard `value > 0` skips everything later). -/
theorem addLoop_residue_zero (ps : List (Int × String)) :
    ∀ v : Int, 0 ≤ v → (∀ p ∈ ps, 0 ≤ p.1) → (1 : Int) ∈ ps.map Prod.fst →
      (addLoop ps v "").2 = 0 := by
  induction ps with
  | nil => intro v _ _ hmem; simp at hmem
  | cons p rest ih =>
    intro v hv hw hmem
    obtain ⟨w, s⟩ := p
    by_cases hv0 : 0 < v
    · simp only [addLoop, hv0, if_true]
      rw [addLoop_acc]
      by_cases hw1 : w = 1
      · subst hw1
        have : v - 1 * (v / 1) = 0 := by
          simp
        rw [this, addLoop_zero]
      · have hmem' : (1 : Int) ∈ rest.map Prod.fst := by
          simp only [List.map_cons, List.mem_cons] at hmem
          rcases hmem with h1 | h1
          · exact absurd h1.symm hw1
          · exact h1
        have hwnn : 0 ≤ w := hw (w, s) (List.mem_cons_self _ _)
        have hrem : 0 ≤ v - w * (v / w) := by
          by_cases hw0 : w = 0
          · simp [hw0]; omega
          · have := Int.emod_nonneg v hw0
            rw [Int.emod_def] at this
            omega
        exact ih (v - w * (v / w)) hrem
          (fun q hq => hw q (List.mem_cons_of_mem _ hq)) hmem'
    · simp only [addLoop, hv0, if_false]
      omega

/-- When the greedy pass succeeds on a positive value over positive weights
with non-empty symbols, its output is non-empty: the first weight not
exceeding the running value contributes at least one symbol copy. -/
theorem addLoop_ne (ps : List (Int × String)) :
    ∀ v : Int, 1 ≤ v → (∀ p ∈ ps, 1 ≤ p.1 ∧ p.2 ≠ "") →
      (addLoop ps v "").2 = 0 → (addLoop ps v "").1 ≠ "" := by
  induction ps with
  | nil =>
    intro v hv _ hres
    simp [addLoop] at hres
    omega
  | cons p rest ih =>
    intro v hv hp hres
    obtain ⟨w, s⟩ := p
    have hw1 : 1 ≤ w := (hp (w, s) (List.mem_cons_self _ _)).1
    have hsne : s ≠ "" := (hp (w, s) (List.mem_cons_self _ _)).2
    have hv0 : 0 < v := by omega
    rw [addLoop] at hres ⊢
    simp only [hv0, if_true] at hres ⊢
    rw [addLoop_acc] at hres ⊢
    by_cases hwv : w ≤ v
    · have hcnt : 1 ≤ v / w := by
        rw [Int.le_ediv_iff_mul_le (by omega)]
        omega
      apply strAppendNeL
      apply strAppendNeR
      exact strRepeat_ne s _ hsne (by omega)
    · have hdiv : v / w = 0 := Int.ediv_eq_zero_of_lt (by omega) (by omega)
      simp only [hdiv, Int.mul_zero, Int.sub_zero, Int.toNat_zero] at hres ⊢
      exact ih v hv (fun q hq => hp q (List.mem_cons_of_mem _ hq)) hres

/-! ### The Chinese positional loop -/

theorem msdPow_pos (n : Nat) : 1 ≤ msdPow n := by
  induction n using Nat.strong_induction_on with
  | _ n ih =>
    rw [msdPow]
    by_cases h : n < 10
    · rw [if_pos h]
    · rw [if_neg h]
      have := ih (n / 10) (Nat.div_lt_self (by omega) (by omega))
      omega

theorem msdPow_le (n : Nat) : 1 ≤ n → msdPow n ≤ n := by
  induction n using Nat.strong_induction_on with
  | _ n ih =>
    intro h
    rw [msdPow]
    by_cases h10 : n < 10
    · rw [if_pos h10]
      omega
    · rw [if_neg h10]
      have hrec := ih (n / 10) (Nat.div_lt_self (by omega) (by omega))
        (by omega)
      have : 10 * (n / 10) ≤ n := by omega
      omega

theorem lt_ten_msdPow (n : Nat) : n < 10 * msdPow n := by
  induction n using Nat.strong_induction_on with
  | _ n ih =>
    rw [msdPow]
    by_cases h10 : n < 10
    · rw [if_pos h10]
      omega
    · rw [if_neg h10]
      have hrec := ih (n / 10) (Nat.div_lt_self (by omega) (by omega))
      have : n < 10 * (n / 10) + 10 := by omega
      omega

theorem chineseLoop_ne (digits : List String) (c10 c100 c1000 : String)
    (hd : digits.length = 10) (hne : ∀ d ∈ digits, d ≠ "")
    (n : Nat) (h1 : 1 ≤ n) :
    chineseLoop digits c10 c100 c1000 n (msdPow n) false ≠ "" := by
  have hm1 : 1 ≤ msdPow n := msdPow_pos n
  have hdig1 : 1 ≤ n / msdPow n :=
    (Nat.one_le_div_iff (by omega)).mpr (msdPow_le n h1)
  have hdig9 : n / msdPow n < 10 :=
    (Nat.div_lt_iff_lt_mul (by omega)).mpr
      (by have := lt_ten_msdPow n; omega)
  rw [chineseLoop]
  rw [if_neg (show ¬ n = 0 by omega), if_neg (show ¬ msdPow n = 0 by omega),
    if_neg (show ¬ n / msdPow n = 0 by omega)]
  apply strAppendNeL
  apply strAppendNeL
  apply strAppendNeR
  rw [List.get?_eq_get (show n / msdPow n < digits.length by omega)]
  exact hne _ (List.get_mem _ _ _)

theorem chineseFormat_ne (formal : Bool) (digits : List String)
    (c10 c100 c1000 : String) (hd : digits.length = 10)
    (hne : ∀ d ∈ digits, d ≠ "") (hc10 : c10 ≠ "")
    (v : Int) (hv : 0 ≤ v) :
    ∃ s, chineseFormat formal digits c10 c100 c1000 v = some s ∧ s ≠ "" := by
  unfold chineseFormat
  by_cases h0 : v = 0
  · rw [if_pos h0, List.get?_eq_get (show 0 < digits.length by omega)]
    exact ⟨_, rfl, hne _ (List.get_mem _ _ _)⟩
  · rw [if_neg h0]
    by_cases h10 : (!formal && v = 10) = true
    · rw [if_pos h10]
      exact ⟨c10, rfl, hc10⟩
    · rw [if_neg (by simp [h10])]
      by_cases h1019 : (!formal && 10 ≤ v && v < 20) = true
      · rw [if_pos h1019]
        exact ⟨_, rfl, strAppendNeL _ _ hc10⟩
      · rw [if_neg (by simp [h1019]), if_neg (show ¬ v < 0 by omega)]
        exact ⟨_, rfl, chineseLoop_ne digits c10 c100 c1000 hd hne v.toNat
          (by omega)⟩

/-! ### The Ethiopic grouping loop -/

theorem ethDigits_ne : ∀ d ∈ ethDigits, d ≠ "" := by decide

theorem ethLoop_nil (inx : Nat) : ethLoop inx 0 = "" := by
  rw [ethLoop]
  simp

theorem ethGroupStr_ne_low (inx : Nat) (n : Nat) (h2 : 2 ≤ n)
    (h100 : n < 100) : ethGroupStr inx n ≠ "" := by
  unfold ethGroupStr
  have hmod : n % 100 = n := Nat.mod_eq_of_lt h100
  rw [if_neg (by rw [hmod]; omega)]
  apply strAppendNeL
  apply strAppendNeL
  by_cases ht : 0 < (n % 100) / 10
  · rw [if_pos ht]
    apply strAppendNeL
    have hb : 10 + n % 100 / 10 < ethDigits.length := by
      have : n % 100 / 10 ≤ 9 := by omega
      simp [ethDigits]
      omega
    rw [List.get?_eq_get hb]
    exact ethDigits_ne _ (List.get_mem _ _ _)
  · rw [if_neg ht]
    have ho : 0 < n % 100 % 10 := by
      rw [hmod] at ht ⊢
      omega
    rw [if_pos ho]
    apply strAppendNeR
    have hb : n % 100 % 10 < ethDigits.length := by
      have : n % 100 % 10 ≤ 9 := by omega
      simp [ethDigits]
      omega
    rw [List.get?_eq_get hb]
    exact ethDigits_ne _ (List.get_mem _ _ _)

theorem ethGroupStr_ne_one (inx : Nat) (hinx : 1 ≤ inx) :
    ethGroupStr inx 1 ≠ "" := by
  unfold ethGroupStr
  rw [if_pos (by omega)]
  by_cases hodd : inx % 2 = 1
  · apply strAppendNeL
    apply strAppendNeR
    rw [if_pos ⟨by omega, hodd⟩]
    decide
  · apply strAppendNeR
    rw [if_pos ⟨by omega, by omega⟩]
    decide

theorem ethLoop_ne (n : Nat) : ∀ inx : Nat,
    2 ≤ n ∨ (n = 1 ∧ 1 ≤ inx) → ethLoop inx n ≠ "" := by
  induction n using Nat.strong_induction_on with
  | _ n ihn =>
    intro inx h
    have hn1 : 1 ≤ n := by omega
    rw [ethLoop]
    rw [if_neg (by omega)]
    by_cases h100 : n < 100
    · have hq0 : n / 100 = 0 := by omega
      rw [hq0, ethLoop_nil]
      apply strAppendNeR
      rcases h with h2 | ⟨h1, hinx⟩
      · exact ethGroupStr_ne_low inx n h2 h100
      · subst h1
        exact ethGroupStr_ne_one inx hinx
    · apply strAppendNeL
      apply ihn (n / 100) (Nat.div_lt_self (by omega) (by omega)) (inx + 1)
      by_cases hq : n / 100 = 1
      · right
        exact ⟨hq, by omega⟩
      · left
        have : 1 ≤ n / 100 := by omega
        omega

theorem ethiopicFormat_ne (v : Int) (hv : 1 ≤ v) :
    ∃ s, ethiopicFormat v = some s ∧ s ≠ "" := by
  unfold ethiopicFormat
  by_cases h1 : v = 1
  · rw [if_pos h1]
    exact ⟨"፩", rfl, by decide⟩
  · rw [if_neg h1]
    exact ⟨_, rfl, ethLoop_ne v.toNat 0 (by omega)⟩

/-! ### Alphabetic, cyclic and fixed systems -/

theorem alphaLoop_ne (syms : List String) (h1 : 1 ≤ syms.length)
    (hs : ∀ x ∈ syms, x ≠ "") (n : Nat) (hn : 1 ≤ n) :
    alphaLoop syms n ≠ "" := by
  rw [alphaLoop]
  rw [if_neg (by omega), dif_neg (by omega)]
  apply strAppendNeR
  have hlt : (n - 1) % syms.length < syms.length := Nat.mod_lt _ (by omega)
  rw [List.get?_eq_get hlt]
  exact hs _ (List.get_mem _ _ _)

/-- The JS index `Math.abs(x % N)` is a valid index for `0 < N`. -/
theorem natAbs_tmod_lt (a : Int) (b : Nat) (hb : 0 < b) :
    (a.tmod b).natAbs < b := by
  rcases Int.le_or_lt 0 a with ha | ha
  · have hnn : 0 ≤ a.tmod b := Int.tmod_nonneg _ ha
    have hlt : a.tmod b < b := Int.tmod_lt_of_pos a (by exact_mod_cast hb)
    omega
  · have hflip : a.tmod b = -((-a).tmod b) := by
      rw [Int.tmod_def, Int.tmod_def, Int.neg_tdiv]
      ring
    have hnn : 0 ≤ (-a).tmod b := Int.tmod_nonneg _ (by omega)
    have hlt : (-a).tmod b < b := Int.tmod_lt_of_pos (-a) (by exact_mod_cast hb)
    omega

theorem cyclicFormat_ne (syms : List String) (h1 : 1 ≤ syms.length)
    (hs : ∀ x ∈ syms, x ≠ "") (v : Int) :
    ∃ s, cyclicFormat syms v = some s ∧ s ≠ "" := by
  unfold cyclicFormat
  rw [if_neg (by omega)]
  rw [List.get?_eq_get (natAbs_tmod_lt (v - 1) syms.length (by omega))]
  exact ⟨_, rfl, hs _ (List.get_mem _ _ _)⟩

theorem fixedFormat_in (syms : List String) (first v : Int)
    (h0 : 0 ≤ v - first) (hN : v - first < syms.length) :
    fixedFormat syms first v = syms.get? (v - first).toNat := by
  unfold fixedFormat jsGetI
  rw [if_neg (by omega), if_neg (by omega)]

theorem fixedFormat_out (syms : List String) (first v : Int)
    (h : v - first < 0 ∨ (syms.length : Int) ≤ v - first) :
    fixedFormat syms first v = none := by
  unfold fixedFormat jsGetI
  rcases h with h | h
  · rw [if_neg (by omega), if_pos (by omega)]
  · rw [if_pos (by omega)]

/-! ### Style-level formatting lemmas for the built-in registry -/

theorem numIf_abs (v : Int) : (if v < 0 then |v| else v) = |v| := by
  by_cases hv : v < 0
  · rw [if_pos hv]
  · rw [if_neg hv, abs_of_nonneg (by omega)]

theorem outOfRange_unbounded (n : Int) :
    outOfRange ⟨.negInf, .posInf⟩ n = false := by
  simp [outOfRange, numLtBound, numGtBound]

theorem safeB_of_fallback (system : CSystem) (negative : NegSym)
    (range : CSRange) (pad : Option PadSpec) (f : Style)
    (hf : f.safeB = true) :
    (Style.mk system negative range pad (some f)).safeB = true := by
  rw [Style.safeB.eq_def]
  simp [hf]

/-- An out-of-range magnitude is delegated to the fallback unchanged. -/
theorem styleOut_delegates (system : CSystem) (negative : NegSym)
    (range : CSRange) (pad : Option PadSpec) (f : Style) (v : Int)
    (hout : outOfRange range |v| = true) :
    ∃ g, (Style.mk system negative range pad (some f)).fallback = some g ∧
      (Style.mk system negative range pad (some f)).formatNumber v =
        g.formatNumber v := by
  refine ⟨f, rfl, ?_⟩
  rw [formatNumber_out system negative range pad (some f) v
    (by rwa [numIf_abs])]

/-- The decimal style always yields a non-empty string by itself. -/
theorem FALLBACK_formatNumber_ne (v : Int) :
    ∃ s, FALLBACK.formatNumber v = some s ∧ s ≠ "" := by
  have h2 : 2 ≤ (strChars "0123456789").length := by decide
  have hsne : ∀ x ∈ strChars "0123456789", x ≠ "" := by decide
  have hnn : 0 ≤ (if v < 0 then |v| else v) := by
    rw [numIf_abs]
    exact abs_nonneg v
  obtain ⟨str, hstr, hne⟩ := numericFormat_ne _ h2 hsne _ hnn
  obtain ⟨t, ht, himp⟩ := formatNumber_sysSome (.numeric (strChars "0123456789"))
    ⟨"-", none⟩ ⟨.negInf, .posInf⟩ none none v str (outOfRange_unbounded _)
    (by simpa [CSystem.format] using hstr)
  exact ⟨t, ht, himp hne⟩

/-- So does the cjk-decimal style (fallback of the CJK styles). -/
theorem cjk_decimal_formatNumber_ne (v : Int) :
    ∃ s, cjk_decimal.formatNumber v = some s ∧ s ≠ "" := by
  have h2 : 2 ≤ (strChars "〇一二三四五六七八九").length := by decide
  have hsne : ∀ x ∈ strChars "〇一二三四五六七八九", x ≠ "" := by decide
  have hnn : 0 ≤ (if v < 0 then |v| else v) := by
    rw [numIf_abs]
    exact abs_nonneg v
  obtain ⟨str, hstr, hne⟩ := numericFormat_ne _ h2 hsne _ hnn
  obtain ⟨t, ht, himp⟩ := formatNumber_sysSome
    (.numeric (strChars "〇一二三四五六七八九")) ⟨"-", none⟩
    ⟨.negInf, .posInf⟩ none (some FALLBACK) v str (outOfRange_unbounded _)
    (by simpa [CSystem.format] using hstr)
  exact ⟨t, ht, himp hne⟩

theorem FALLBACK_safe : FALLBACK.safeB = true := by decide

theorem cjk_decimal_safe : cjk_decimal.safeB = true := by decide

/-- Splitting the greedy pass at a list append. -/
theorem addLoop_append (xs ys : List (Int × String)) :
    ∀ (v : Int) (acc : String),
      addLoop (xs ++ ys) v acc =
        addLoop ys (addLoop xs v acc).2 (addLoop xs v acc).1 := by
  induction xs with
  | nil => intro v acc; rfl
  | cons p rest ih =>
    intro v acc
    obtain ⟨w, t⟩ := p
    by_cases hv : 0 < v
    · simp only [List.cons_append, addLoop, hv, if_true]
      exact ih _ _
    · simp only [List.cons_append, addLoop, hv, if_false]
      cases ys with
      | nil => rfl
      | cons q qs =>
        obtain ⟨w2, t2⟩ := q
        simp [addLoop, hv]

/-- A positive value over all-positive weights including weight 1 always
formats to a non-empty string. -/
theorem additiveFormat_pos (pairs : List (Int × String)) (v : Int)
    (hv : 1 ≤ v) (hw : ∀ p ∈ pairs, 1 ≤ p.1 ∧ p.2 ≠ "")
    (h1 : (1 : Int) ∈ pairs.map Prod.fst) :
    ∃ s, additiveFormat pairs v = some s ∧ s ≠ "" := by
  have hres := addLoop_residue_zero pairs v (by omega)
    (fun p hp => by have := (hw p hp).1; omega) h1
  unfold additiveFormat
  rw [if_neg (by omega), if_neg (by omega)]
  exact ⟨_, rfl, addLoop_ne pairs v hv hw hres⟩

/-- The korean variant: a trailing zero-weight pair is never reached by the
greedy pass (the loop guard `value > 0` fails first). -/
theorem additiveFormat_pos_zlast (front : List (Int × String)) (z : String)
    (v : Int) (hv : 1 ≤ v) (hw : ∀ p ∈ front, 1 ≤ p.1 ∧ p.2 ≠ "")
    (h1 : (1 : Int) ∈ front.map Prod.fst) :
    ∃ s, additiveFormat (front ++ [(0, z)]) v = some s ∧ s ≠ "" := by
  have hres := addLoop_residue_zero front v (by omega)
    (fun p hp => by have := (hw p hp).1; omega) h1
  have hsplit := addLoop_append front [(0, z)] v ""
  rw [hres] at hsplit
  rw [addLoop_zero] at hsplit
  unfold additiveFormat
  rw [if_neg (by omega), hsplit, if_neg (by simp)]
  exact ⟨_, rfl, addLoop_ne front v hv hw hres⟩

/-- The zero-weight last pair formats the value 0. -/
theorem additiveFormat_zero_zlast (front : List (Int × String)) (z : String) :
    additiveFormat (front ++ [(0, z)]) 0 = some z := by
  unfold additiveFormat
  rw [if_pos rfl, List.getLast?_concat]
  simp

/-- Registry obligation for a numeric style with an unbounded range. -/
theorem numericStyle_ok (nm : String) (syms : List String) (negative : NegSym)
    (pad : Option PadSpec) (fb : Option Style)
    (h2 : 2 ≤ syms.length) (hsne : ∀ x ∈ syms, x ≠ "") :
    StyleOK nm (Style.mk (.numeric syms) negative ⟨.negInf, .posInf⟩ pad fb) := by
  refine ⟨?_, ?_, ?_⟩
  · rw [Style.safeB.eq_def]
    simp [Style.selfTotal, h2]
  · intro v hout
    rw [show (Style.mk (.numeric syms) negative ⟨.negInf, .posInf⟩ pad
      fb).range = ⟨.negInf, .posInf⟩ from rfl, outOfRange_unbounded] at hout
    simp at hout
  · intro v _
    have hnn : 0 ≤ (if v < 0 then |v| else v) := by
      rw [numIf_abs]
      exact abs_nonneg v
    obtain ⟨str, hstr, hne⟩ := numericFormat_ne syms h2 hsne _ hnn
    obtain ⟨t, ht, himp⟩ := formatNumber_sysSome (.numeric syms) negative
      ⟨.negInf, .posInf⟩ pad fb v str (outOfRange_unbounded _)
      (by simpa [CSystem.format] using hstr)
    exact ⟨t, ht, fun h0 => absurd h0 (himp hne)⟩

/-- Registry obligation for a cyclic style. -/
theorem cyclicStyle_ok (nm : String) (syms : List String) (negative : NegSym)
    (pad : Option PadSpec) (f : Style) (h1 : 1 ≤ syms.length)
    (hsne : ∀ x ∈ syms, x ≠ "") (hsafe : f.safeB = true) :
    StyleOK nm
      (Style.mk (.cyclic syms) negative ⟨.negInf, .posInf⟩ pad (some f)) := by
  refine ⟨safeB_of_fallback _ _ _ _ _ hsafe, ?_, ?_⟩
  · intro v hout
    rw [show (Style.mk (.cyclic syms) negative ⟨.negInf, .posInf⟩ pad
      (some f)).range = ⟨.negInf, .posInf⟩ from rfl, outOfRange_unbounded]
      at hout
    simp at hout
  · intro v _
    obtain ⟨str, hstr, hne⟩ := cyclicFormat_ne syms h1 hsne
      (if v < 0 then |v| else v)
    obtain ⟨t, ht, himp⟩ := formatNumber_sysSome (.cyclic syms) negative
      ⟨.negInf, .posInf⟩ pad (some f) v str (outOfRange_unbounded _)
      (by simpa [CSystem.format] using hstr)
    exact ⟨t, ht, fun h0 => absurd h0 (himp hne)⟩

/-- Registry obligation for a fixed style: an index inside the symbol list
formats that symbol, anything else is delegated to the (total) fallback. -/
theorem fixedStyle_ok (nm : String) (syms : List String) (first : Int)
    (negative : NegSym) (pad : Option PadSpec) (f : Style)
    (hsne : ∀ x ∈ syms, x ≠ "") (hsafe : f.safeB = true)
    (hf : ∀ v : Int, ∃ s, f.formatNumber v = some s ∧ s ≠ "") :
    StyleOK nm
      (Style.mk (.fixed syms first) negative ⟨.negInf, .posInf⟩ pad
        (some f)) := by
  refine ⟨safeB_of_fallback _ _ _ _ _ hsafe, ?_, ?_⟩
  · intro v hout
    rw [show (Style.mk (.fixed syms first) negative ⟨.negInf, .posInf⟩ pad
      (some f)).range = ⟨.negInf, .posInf⟩ from rfl, outOfRange_unbounded]
      at hout
    simp at hout
  · intro v _
    by_cases hin : 0 ≤ (if v < 0 then |v| else v) - first ∧
        (if v < 0 then |v| else v) - first < syms.length
    · have hfmt := fixedFormat_in syms first _ hin.1 hin.2
      rw [List.get?_eq_get (show ((if v < 0 then |v| else v) - first).toNat <
        syms.length by omega)] at hfmt
      obtain ⟨t, ht, himp⟩ := formatNumber_sysSome (.fixed syms first)
        negative ⟨.negInf, .posInf⟩ pad (some f) v _ (outOfRange_unbounded _)
        (by simpa [CSystem.format] using hfmt)
      exact ⟨t, ht, fun h0 => absurd h0 (himp (hsne _ (List.get_mem _ _ _)))⟩
    · have hfmt := fixedFormat_out syms first (if v < 0 then |v| else v)
        (by omega)
      rw [formatNumber_sysnone (.fixed syms first) negative ⟨.negInf, .posInf⟩
        pad (some f) v (outOfRange_unbounded _)
        (by simpa [CSystem.format] using hfmt)]
      obtain ⟨str, hstr, hne⟩ := hf v
      exact ⟨str, hstr, fun h0 => absurd h0 hne⟩

/-- Registry obligation for an alphabetic style. -/
theorem alphaStyle_ok (nm : String) (syms : List String) (negative : NegSym)
    (pad : Option PadSpec) (f : Style) (h1 : 1 ≤ syms.length)
    (hsne : ∀ x ∈ syms, x ≠ "") (hsafe : f.safeB = true) :
    StyleOK nm
      (Style.mk (.alphabetic syms) negative ⟨.fin 1, .posInf⟩ pad
        (some f)) := by
  refine ⟨safeB_of_fallback _ _ _ _ _ hsafe,
    fun v hout => styleOut_delegates _ _ _ _ _ _ hout, ?_⟩
  intro v hin
  rw [show (Style.mk (.alphabetic syms) negative ⟨.fin 1, .posInf⟩ pad
    (some f)).range = ⟨.fin 1, .posInf⟩ from rfl] at hin
  simp only [outOfRange, numLtBound, numGtBound, Int.abs_eq_natAbs,
    Bool.or_false, decide_eq_false_iff_not, not_lt] at hin
  have habs : 1 ≤ |v| := by
    rw [Int.abs_eq_natAbs]
    omega
  have hloop := alphaLoop_ne syms h1 hsne (|v|).toNat (by omega)
  have hfmt : (CSystem.alphabetic syms).format (if v < 0 then |v| else v) =
      some (alphaLoop syms (|v|).toNat) := by
    rw [numIf_abs]
    rfl
  have hout : outOfRange ⟨XBound.fin 1, XBound.posInf⟩
      (if v < 0 then |v| else v) = false := by
    rw [numIf_abs]
    simp only [outOfRange, numLtBound, numGtBound, Bool.or_false,
      decide_eq_false_iff_not, not_lt]
    omega
  obtain ⟨t, ht, himp⟩ := formatNumber_sysSome (.alphabetic syms) negative
    ⟨.fin 1, .posInf⟩ pad (some f) v _ hout hfmt
  exact ⟨t, ht, fun h0 => absurd h0 (himp hloop)⟩

/-- Registry obligation for the ethiopic style. -/
theorem ethStyle_ok (nm : String) (negative : NegSym) (pad : Option PadSpec)
    (f : Style) (hsafe : f.safeB = true) :
    StyleOK nm
      (Style.mk .ethiopic negative ⟨.fin 1, .posInf⟩ pad (some f)) := by
  refine ⟨safeB_of_fallback _ _ _ _ _ hsafe,
    fun v hout => styleOut_delegates _ _ _ _ _ _ hout, ?_⟩
  intro v hin
  rw [show (Style.mk .ethiopic negative ⟨.fin 1, .posInf⟩ pad
    (some f)).range = ⟨.fin 1, .posInf⟩ from rfl] at hin
  simp only [outOfRange, numLtBound, numGtBound, Int.abs_eq_natAbs,
    Bool.or_false, decide_eq_false_iff_not, not_lt] at hin
  have habs : 1 ≤ |v| := by
    rw [Int.abs_eq_natAbs]
    omega
  obtain ⟨str, hstr, hne⟩ := ethiopicFormat_ne (|v|) habs
  have hfmt : CSystem.ethiopic.format (if v < 0 then |v| else v) =
      some str := by
    rw [numIf_abs]
    exact hstr
  have hout : outOfRange ⟨XBound.fin 1, XBound.posInf⟩
      (if v < 0 then |v| else v) = false := by
    rw [numIf_abs]
    simp only [outOfRange, numLtBound, numGtBound, Bool.or_false,
      decide_eq_false_iff_not, not_lt]
    omega
  obtain ⟨t, ht, himp⟩ := formatNumber_sysSome .ethiopic negative
    ⟨.fin 1, .posInf⟩ pad (some f) v _ hout hfmt
  exact ⟨t, ht, fun h0 => absurd h0 (himp hne)⟩

/-- Registry obligation for a chinese style. -/
theorem chineseStyle_ok (nm : String) (formal : Bool) (digits : List String)
    (c10 c100 c1000 : String) (negative : NegSym) (pad : Option PadSpec)
    (f : Style) (hd : digits.length = 10) (hne : ∀ d ∈ digits, d ≠ "")
    (hc10 : c10 ≠ "") (hsafe : f.safeB = true) :
    StyleOK nm
      (Style.mk (.chinese formal digits c10 c100 c1000) negative
        ⟨.fin (-9999), .fin 9999⟩ pad (some f)) := by
  refine ⟨safeB_of_fallback _ _ _ _ _ hsafe,
    fun v hout => styleOut_delegates _ _ _ _ _ _ hout, ?_⟩
  intro v hin
  have hnn : 0 ≤ (if v < 0 then |v| else v) := by
    rw [numIf_abs]
    exact abs_nonneg v
  obtain ⟨str, hstr, hsne⟩ := chineseFormat_ne formal digits c10 c100 c1000
    hd hne hc10 _ hnn
  have hout : outOfRange ⟨XBound.fin (-9999), XBound.fin 9999⟩
      (if v < 0 then |v| else v) = false := by
    rw [numIf_abs]
    rw [show (Style.mk (.chinese formal digits c10 c100 c1000) negative
      ⟨.fin (-9999), .fin 9999⟩ pad (some f)).range =
      ⟨.fin (-9999), .fin 9999⟩ from rfl] at hin
    exact hin
  obtain ⟨t, ht, himp⟩ := formatNumber_sysSome
    (.chinese formal digits c10 c100 c1000) negative
    ⟨.fin (-9999), .fin 9999⟩ pad (some f) v _ hout
    (by simpa [CSystem.format] using hstr)
  exact ⟨t, ht, fun h0 => absurd h0 (himp hsne)⟩

/-- Registry obligation for an additive style with range minimum 1
(armenian, georgian, hebrew, roman). -/
theorem additiveStyle1_ok (nm : String) (pairs : List (Int × String))
    (negative : NegSym) (M : Int) (pad : Option PadSpec) (f : Style)
    (hw : ∀ p ∈ pairs, 1 ≤ p.1 ∧ p.2 ≠ "")
    (h1 : (1 : Int) ∈ pairs.map Prod.fst) (hsafe : f.safeB = true) :
    StyleOK nm
      (Style.mk (.additive pairs) negative ⟨.fin 1, .fin M⟩ pad (some f)) := by
  refine ⟨safeB_of_fallback _ _ _ _ _ hsafe,
    fun v hout => styleOut_delegates _ _ _ _ _ _ hout, ?_⟩
  intro v hin
  rw [show (Style.mk (.additive pairs) negative ⟨.fin 1, .fin M⟩ pad
    (some f)).range = ⟨.fin 1, .fin M⟩ from rfl] at hin
  simp only [outOfRange, numLtBound, numGtBound, Int.abs_eq_natAbs,
    Bool.or_eq_false_iff, decide_eq_false_iff_not, not_lt] at hin
  have habs : 1 ≤ |v| := by
    rw [Int.abs_eq_natAbs]
    omega
  obtain ⟨str, hstr, hne⟩ := additiveFormat_pos pairs (|v|) habs hw h1
  have hout : outOfRange ⟨XBound.fin 1, XBound.fin M⟩
      (if v < 0 then |v| else v) = false := by
    rw [numIf_abs]
    simp only [outOfRange, numLtBound, numGtBound, Int.abs_eq_natAbs,
      Bool.or_eq_false_iff, decide_eq_false_iff_not, not_lt]
    omega
  obtain ⟨t, ht, himp⟩ := formatNumber_sysSome (.additive pairs) negative
    ⟨.fin 1, .fin M⟩ pad (some f) v _ hout
    (by rw [show (CSystem.additive pairs).format (if v < 0 then |v| else v) =
      additiveFormat pairs (if v < 0 then |v| else v) from rfl, numIf_abs]
        exact hstr)
  exact ⟨t, ht, fun h0 => absurd h0 (himp hne)⟩

/-- Registry obligation for the korean additive styles: symmetric range and
a zero-weight final symbol pair that formats the value 0. -/
theorem additiveStyleK_ok (nm : String) (front : List (Int × String))
    (z : String) (negative : NegSym) (f : Style)
    (hw : ∀ p ∈ front, 1 ≤ p.1 ∧ p.2 ≠ "")
    (h1 : (1 : Int) ∈ front.map Prod.fst) (hz : z ≠ "")
    (hsafe : f.safeB = true) :
    StyleOK nm
      (Style.mk (.additive (front ++ [(0, z)])) negative
        ⟨.fin (-9999), .fin 9999⟩ none (some f)) := by
  refine ⟨safeB_of_fallback _ _ _ _ _ hsafe,
    fun v hout => styleOut_delegates _ _ _ _ _ _ hout, ?_⟩
  intro v hin
  rw [show (Style.mk (.additive (front ++ [(0, z)])) negative
    ⟨.fin (-9999), .fin 9999⟩ none (some f)).range =
    ⟨.fin (-9999), .fin 9999⟩ from rfl] at hin
  have hout : outOfRange ⟨XBound.fin (-9999), XBound.fin 9999⟩
      (if v < 0 then |v| else v) = false := by
    rw [numIf_abs]
    exact hin
  by_cases h0 : v = 0
  · subst h0
    have hfmt : (CSystem.additive (front ++ [(0, z)])).format
        (if (0 : Int) < 0 then |(0 : Int)| else 0) = some z := by
      rw [show (if (0 : Int) < 0 then |(0 : Int)| else 0) = 0 by norm_num]
      exact additiveFormat_zero_zlast front z
    obtain ⟨t, ht, himp⟩ := formatNumber_sysSome
      (.additive (front ++ [(0, z)])) negative ⟨.fin (-9999), .fin 9999⟩
      none (some f) 0 z hout hfmt
    exact ⟨t, ht, fun he => absurd he (himp hz)⟩
  · have habs : 1 ≤ |v| := Int.one_le_abs (by omega)
    obtain ⟨str, hstr, hne⟩ := additiveFormat_pos_zlast front z (|v|) habs hw h1
    obtain ⟨t, ht, himp⟩ := formatNumber_sysSome
      (.additive (front ++ [(0, z)])) negative ⟨.fin (-9999), .fin 9999⟩
      none (some f) v str hout
      (by rw [show (CSystem.additive (front ++ [(0, z)])).format
        (if v < 0 then |v| else v) =
        additiveFormat (front ++ [(0, z)]) (if v < 0 then |v| else v) from rfl,
        numIf_abs]
          exact hstr)
    exact ⟨t, ht, fun h0 => absurd h0 (himp hne)⟩

/-- Registry obligation for the two japanese styles: identical to the
korean case except that the symbol list has **no** zero-weight entry, so
the value 0 formats to the empty string — the documented exception. -/
theorem additiveStyleJ_ok (nm : String) (pairs : List (Int × String))
    (negative : NegSym) (f : Style)
    (hnm : nm = "japanese-formal" ∨ nm = "japanese-informal")
    (hw : ∀ p ∈ pairs, 1 ≤ p.1 ∧ p.2 ≠ "")
    (h1 : (1 : Int) ∈ pairs.map Prod.fst) (hsafe : f.safeB = true)
    (hzero : additiveFormat pairs 0 = some "") :
    StyleOK nm
      (Style.mk (.additive pairs) negative ⟨.fin (-9999), .fin 9999⟩ none
        (some f)) := by
  refine ⟨safeB_of_fallback _ _ _ _ _ hsafe,
    fun v hout => styleOut_delegates _ _ _ _ _ _ hout, ?_⟩
  intro v hin
  rw [show (Style.mk (.additive pairs) negative ⟨.fin (-9999), .fin 9999⟩
    none (some f)).range = ⟨.fin (-9999), .fin 9999⟩ from rfl] at hin
  have hout : outOfRange ⟨XBound.fin (-9999), XBound.fin 9999⟩
      (if v < 0 then |v| else v) = false := by
    rw [numIf_abs]
    exact hin
  by_cases h0 : v = 0
  · subst h0
    have hfmt : (CSystem.additive pairs).format
        (if (0 : Int) < 0 then |(0 : Int)| else 0) = some "" := by
      rw [show (if (0 : Int) < 0 then |(0 : Int)| else 0) = 0 by norm_num]
      exact hzero
    obtain ⟨t, ht, himp⟩ := formatNumber_sysSome (.additive pairs) negative
      ⟨.fin (-9999), .fin 9999⟩ none (some f) 0 "" hout hfmt
    refine ⟨t, ht, fun _ => ⟨hnm, rfl⟩⟩
  · have habs : 1 ≤ |v| := Int.one_le_abs (by omega)
    obtain ⟨str, hstr, hne⟩ := additiveFormat_pos pairs (|v|) habs hw h1
    obtain ⟨t, ht, himp⟩ := formatNumber_sysSome (.additive pairs) negative
      ⟨.fin (-9999), .fin 9999⟩ none (some f) v str hout
      (by rw [show (CSystem.additive pairs).format
        (if v < 0 then |v| else v) =
        additiveFormat pairs (if v < 0 then |v| else v) from rfl, numIf_abs]
          exact hstr)
    exact ⟨t, ht, fun h0 => absurd h0 (himp hne)⟩

/-- Wrapper for the korean obligation stated on the whole symbol list. -/
theorem additiveStyleK_okB (nm : String) (pairs : List (Int × String))
    (z : String) (negative : NegSym) (f : Style)
    (hsplit : pairs = pairs.dropLast ++ [(0, z)])
    (hw : ∀ p ∈ pairs.dropLast, 1 ≤ p.1 ∧ p.2 ≠ "")
    (h1 : (1 : Int) ∈ pairs.dropLast.map Prod.fst) (hz : z ≠ "")
    (hsafe : f.safeB = true) :
    StyleOK nm (Style.mk (.additive pairs) negative
      ⟨.fin (-9999), .fin 9999⟩ none (some f)) := by
  rw [hsplit]
  exact additiveStyleK_ok nm pairs.dropLast z negative f hw h1 hz hsafe

/-- Every entry of the exported registry meets the (amended) C2
obligations. -/
theorem styles_all_ok : ∀ nm s, (nm, s) ∈ Styles → StyleOK nm s := by
  intro nm s hmem
  simp only [Styles, List.mem_cons, List.not_mem_nil, or_false,
    Prod.mk.injEq] at hmem
  rcases hmem with ⟨rfl, rfl⟩ | hmem
  · exact additiveStyle1_ok _ _ _ _ _ _ (by decide) (by decide) FALLBACK_safe
  rcases hmem with ⟨rfl, rfl⟩ | hmem
  · exact numericStyle_ok _ _ _ _ _ (by decide) (by decide)
  rcases hmem with ⟨rfl, rfl⟩ | hmem
  · exact numericStyle_ok _ _ _ _ _ (by decide) (by decide)
  rcases hmem with ⟨rfl, rfl⟩ | hmem
  · exact numericStyle_ok _ _ _ _ _ (by decide) (by decide)
  rcases hmem with ⟨rfl, rfl⟩ | hmem
  · exact additiveStyle1_ok _ _ _ _ _ _ (by decide) (by decide) FALLBACK_safe
  rcases hmem with ⟨rfl, rfl⟩ | hmem
  · exact numericStyle_ok _ _ _ _ _ (by decide) (by decide)
  rcases hmem with ⟨rfl, rfl⟩ | hmem
  · exact numericStyle_ok _ _ _ _ _ (by decide) (by decide)
  rcases hmem with ⟨rfl, rfl⟩ | hmem
  · exact additiveStyle1_ok _ _ _ _ _ _ (by decide) (by decide) FALLBACK_safe
  rcases hmem with ⟨rfl, rfl⟩ | hmem
  · exact numericStyle_ok _ _ _ _ _ (by decide) (by decide)
  rcases hmem with ⟨rfl, rfl⟩ | hmem
  · exact numericStyle_ok _ _ _ _ _ (by decide) (by decide)
  rcases hmem with ⟨rfl, rfl⟩ | hmem
  · exact numericStyle_ok _ _ _ _ _ (by decide) (by decide)
  rcases hmem with ⟨rfl, rfl⟩ | hmem
  · exact numericStyle_ok _ _ _ _ _ (by decide) (by decide)
  rcases hmem with ⟨rfl, rfl⟩ | hmem
  · exact numericStyle_ok _ _ _ _ _ (by decide) (by decide)
  rcases hmem with ⟨rfl, rfl⟩ | hmem
  · exact numericStyle_ok _ _ _ _ _ (by decide) (by decide)
  rcases hmem with ⟨rfl, rfl⟩ | hmem
  · exact numericStyle_ok _ _ _ _ _ (by decide) (by decide)
  rcases hmem with ⟨rfl, rfl⟩ | hmem
  · exact numericStyle_ok _ _ _ _ _ (by decide) (by decide)
  rcases hmem with ⟨rfl, rfl⟩ | hmem
  · exact numericStyle_ok _ _ _ _ _ (by decide) (by decide)
  rcases hmem with ⟨rfl, rfl⟩ | hmem
  · exact numericStyle_ok _ _ _ _ _ (by decide) (by decide)
  rcases hmem with ⟨rfl, rfl⟩ | hmem
  · exact numericStyle_ok _ _ _ _ _ (by decide) (by decide)
  rcases hmem with ⟨rfl, rfl⟩ | hmem
  · exact alphaStyle_ok _ _ _ _ _ (by decide) (by decide) FALLBACK_safe
  rcases hmem with ⟨rfl, rfl⟩ | hmem
  · exact alphaStyle_ok _ _ _ _ _ (by decide) (by decide) FALLBACK_safe
  rcases hmem with ⟨rfl, rfl⟩ | hmem
  · exact cyclicStyle_ok _ _ _ _ _ (by decide) (by decide) FALLBACK_safe
  rcases hmem with ⟨rfl, rfl⟩ | hmem
  · exact cyclicStyle_ok _ _ _ _ _ (by decide) (by decide) FALLBACK_safe
  rcases hmem with ⟨rfl, rfl⟩ | hmem
  · exact cyclicStyle_ok _ _ _ _ _ (by decide) (by decide) FALLBACK_safe
  rcases hmem with ⟨rfl, rfl⟩ | hmem
  · exact numericStyle_ok _ _ _ _ _ (by decide) (by decide)
  rcases hmem with ⟨rfl, rfl⟩ | hmem
  · exact numericStyle_ok _ _ _ _ _ (by decide) (by decide)
  rcases hmem with ⟨rfl, rfl⟩ | hmem
  · exact numericStyle_ok _ _ _ _ _ (by decide) (by decide)
  rcases hmem with ⟨rfl, rfl⟩ | hmem
  · exact additiveStyle1_ok _ _ _ _ _ _ (by decide) (by decide) FALLBACK_safe
  rcases hmem with ⟨rfl, rfl⟩ | hmem
  · exact additiveStyle1_ok _ _ _ _ _ _ (by decide) (by decide) FALLBACK_safe
  rcases hmem with ⟨rfl, rfl⟩ | hmem
  · exact numericStyle_ok _ _ _ _ _ (by decide) (by decide)
  rcases hmem with ⟨rfl, rfl⟩ | hmem
  · exact numericStyle_ok _ _ _ _ _ (by decide) (by decide)
  rcases hmem with ⟨rfl, rfl⟩ | hmem
  · exact additiveStyle1_ok _ _ _ _ _ _ (by decide) (by decide) FALLBACK_safe
  rcases hmem with ⟨rfl, rfl⟩ | hmem
  · exact additiveStyle1_ok _ _ _ _ _ _ (by decide) (by decide) FALLBACK_safe
  rcases hmem with ⟨rfl, rfl⟩ | hmem
  · exact alphaStyle_ok _ _ _ _ _ (by decide) (by decide) FALLBACK_safe
  rcases hmem with ⟨rfl, rfl⟩ | hmem
  · exact alphaStyle_ok _ _ _ _ _ (by decide) (by decide) FALLBACK_safe
  rcases hmem with ⟨rfl, rfl⟩ | hmem
  · exact alphaStyle_ok _ _ _ _ _ (by decide) (by decide) FALLBACK_safe
  rcases hmem with ⟨rfl, rfl⟩ | hmem
  · exact alphaStyle_ok _ _ _ _ _ (by decide) (by decide) FALLBACK_safe
  rcases hmem with ⟨rfl, rfl⟩ | hmem
  · exact alphaStyle_ok _ _ _ _ _ (by decide) (by decide) FALLBACK_safe
  rcases hmem with ⟨rfl, rfl⟩ | hmem
  · exact alphaStyle_ok _ _ _ _ _ (by decide) (by decide) FALLBACK_safe
  rcases hmem with ⟨rfl, rfl⟩ | hmem
  · exact fixedStyle_ok _ _ _ _ _ _ (by decide) FALLBACK_safe FALLBACK_formatNumber_ne
  rcases hmem with ⟨rfl, rfl⟩ | hmem
  · exact fixedStyle_ok _ _ _ _ _ _ (by decide) FALLBACK_safe FALLBACK_formatNumber_ne
  rcases hmem with ⟨rfl, rfl⟩ | hmem
  · exact alphaStyle_ok _ _ _ _ _ (by decide) (by decide) FALLBACK_safe
  rcases hmem with ⟨rfl, rfl⟩ | hmem
  · exact additiveStyleJ_ok _ _ _ _ (Or.inl rfl) (by decide) (by decide) cjk_decimal_safe (by decide)
  rcases hmem with ⟨rfl, rfl⟩ | hmem
  · exact additiveStyleJ_ok _ _ _ _ (Or.inr rfl) (by decide) (by decide) cjk_decimal_safe (by decide)
  rcases hmem with ⟨rfl, rfl⟩ | hmem
  · exact additiveStyleK_okB _ _ "영" _ _ (by decide) (by decide) (by decide) (by decide) FALLBACK_safe
  rcases hmem with ⟨rfl, rfl⟩ | hmem
  · exact additiveStyleK_okB _ _ "零" _ _ (by decide) (by decide) (by decide) (by decide) FALLBACK_safe
  rcases hmem with ⟨rfl, rfl⟩ | hmem
  · exact additiveStyleK_okB _ _ "零" _ _ (by decide) (by decide) (by decide) (by decide) FALLBACK_safe
  rcases hmem with ⟨rfl, rfl⟩ | hmem
  · exact chineseStyle_ok _ _ _ _ _ _ _ _ _ (by decide) (by decide) (by decide) cjk_decimal_safe
  rcases hmem with ⟨rfl, rfl⟩ | hmem
  · exact chineseStyle_ok _ _ _ _ _ _ _ _ _ (by decide) (by decide) (by decide) cjk_decimal_safe
  rcases hmem with ⟨rfl, rfl⟩ | hmem
  · exact chineseStyle_ok _ _ _ _ _ _ _ _ _ (by decide) (by decide) (by decide) cjk_decimal_safe
  rcases hmem with ⟨rfl, rfl⟩ | hmem
  · exact chineseStyle_ok _ _ _ _ _ _ _ _ _ (by decide) (by decide) (by decide) cjk_decimal_safe
  obtain ⟨rfl, rfl⟩ := hmem
  exact ethStyle_ok _ _ _ _ FALLBACK_safe

/-! ### Claims C2, C3, C8, C9 — the formatter -/

/-- C2, counterexample to the claim as stated: the value `0` lies inside
the documented range of the `japanese-informal` style (−9999..9999), yet
`format` returns the **empty** string for it — the range-respecting
non-emptiness half of the claim is false on the code (the style's `zip`
truncation drops the zero symbol `〇`, and `Additive.format` then returns
the loop's empty accumulator for a zero value). -/
theorem c2_counterexample :
    ("japanese-informal", japanese_informal) ∈ Styles ∧
    outOfRange japanese_informal.range |(0 : Int)| = false ∧
    japanese_informal.formatNumber 0 = some "" := by
  refine ⟨by simp [Styles], by decide, by decide⟩

/-- C2, amended: (i) `Style.format` returns a string on every fallback
chain that reaches a self-total style (as the chain of every Style the
library can construct does); (ii) for every registry entry the range test
applies to the **absolute value** of the input — when `|value|` is out of
range the call is delegated unchanged to the fallback style — and when
`|value|` is in range the result is a non-empty string, except that the
two japanese styles format the value 0 to the empty string. -/
theorem c2_amended :
    (∀ s : Style, s.safeB = true → ∀ v : Int,
      (s.formatNumber v).isSome = true)
    ∧ (∀ nm s, (nm, s) ∈ Styles → StyleOK nm s) :=
  ⟨fun s hs v => Style.safe_isSome s v hs, styles_all_ok⟩

/-- C2, witness: the amended theorem applied at concrete inputs — the
decimal style formats 5; `upper-roman` delegates 4000 (out of range) to
its fallback, which is the decimal style; and `upper-roman` formats the
in-range 1994 to a non-empty string. -/
theorem c2_amended_witness :
    (FALLBACK.formatNumber 5).isSome = true ∧
    upper_roman.formatNumber 4000 = FALLBACK.formatNumber 4000 ∧
    ∃ str, upper_roman.formatNumber 1994 = some str ∧ str ≠ "" := by
  refine ⟨c2_amended.1 FALLBACK (by decide) 5, ?_, ?_⟩
  · obtain ⟨f, hf, heq⟩ :=
      (c2_amended.2 "upper-roman" upper_roman (by simp [Styles])).2.1 4000
        (by decide)
    rw [show upper_roman.fallback = some FALLBACK from rfl] at hf
    injection hf with hf
    rw [hf]
    exact heq
  · obtain ⟨str, hstr, himp⟩ :=
      (c2_amended.2 "upper-roman" upper_roman (by simp [Styles])).2.2 1994
        (by decide)
    refine ⟨str, hstr, fun he => ?_⟩
    rcases himp he with ⟨hn | hn, _⟩ <;> exact absurd hn (by decide)

/-- C3, counterexample: the default decimal style's `fallback` field does
**not** point to the style itself — it is left undefined. The module-level
`FALLBACK` variable is still unassigned while `Style.create` runs for the
decimal style, so `fallback || FALLBACK` evaluates to `undefined`. -/
theorem c3_counterexample :
    FALLBACK.fallback = none ∧ FALLBACK.fallback ≠ some FALLBACK :=
  ⟨rfl, by rw [show FALLBACK.fallback = none from rfl]; simp⟩

/-- C3, amended: the decimal style's fallback field is left unset rather
than self-referential; fallback recursion nevertheless terminates because
the decimal style itself formats every integer (unbounded range, total
numeric system), and every registry style's fallback chain reaches such a
self-total style (`safeB`). -/
theorem c3_amended :
    FALLBACK.fallback = none
    ∧ (∀ v : Int, ∃ str, FALLBACK.formatNumber v = some str ∧ str ≠ "")
    ∧ (∀ nm s, (nm, s) ∈ Styles → s.safeB = true) :=
  ⟨rfl, FALLBACK_formatNumber_ne,
    fun nm s hmem => (styles_all_ok nm s hmem).1⟩

/-- C3, witness: the amended theorem applied at the `decimal` registry
entry and the value 7. -/
theorem c3_amended_witness :
    FALLBACK.fallback = none ∧
    (∃ str, FALLBACK.formatNumber 7 = some str ∧ str ≠ "") ∧
    FALLBACK.safeB = true :=
  ⟨c3_amended.1, c3_amended.2.1 7,
    c3_amended.2.2 "decimal" FALLBACK (by simp [Styles])⟩

/-- C8, counterexample: `Additive.format` reports the value 0 as
**representable** (the empty string) even though the symbol list contains
no zero-weight symbol — the "zero representable only via an explicit
zero-weight symbol" half of the claim is false on the code. -/
theorem c8_counterexample :
    additiveFormat [((2 : Int), "b")] 0 = some "" ∧
    (∀ p ∈ [((2 : Int), "b")], p.1 ≠ 0) := by
  refine ⟨by decide, by decide⟩

/-- C8, amended: over positive listed weights a nonzero value is
unrepresentable exactly when the greedy pass leaves a nonzero residue;
the value 0 is **always** representable — as the last listed symbol when
its weight is zero, and as the empty string otherwise. -/
theorem c8_amended (symbols : List (Int × String)) :
    ((∀ p ∈ symbols, 1 ≤ p.1) → symbols ≠ [] →
      (∀ v : Int, v ≠ 0 →
        (additiveFormat symbols v = none ↔ (addLoop symbols v "").2 ≠ 0))
      ∧ additiveFormat symbols 0 = some "")
    ∧ (∀ front z, symbols = front ++ [(0, z)] →
        additiveFormat symbols 0 = some z) := by
  constructor
  · intro hw hne
    constructor
    · intro v hv
      unfold additiveFormat
      rw [if_neg hv]
      by_cases hres : (addLoop symbols v "").2 ≠ 0
      · rw [if_pos hres]
        simp [hres]
      · rw [if_neg hres]
        simp [hres]
    · obtain ⟨p, hp⟩ := Option.isSome_iff_exists.mp
        (List.getLast?_isSome.mpr hne)
      obtain ⟨w, z⟩ := p
      have hmem : (w, z) ∈ symbols := List.mem_of_getLast?_eq_some hp
      have hw1 : 1 ≤ w := hw (w, z) hmem
      unfold additiveFormat
      rw [if_pos rfl, hp]
      show (if w = 0 then some z
        else if (addLoop symbols 0 "").2 ≠ 0 then none
        else some (addLoop symbols 0 "").1) = some ""
      rw [if_neg (show ¬ w = 0 by omega), addLoop_zero]
      simp
  · intro front z hsplit
    subst hsplit
    unfold additiveFormat
    rw [if_pos rfl, List.getLast?_concat]
    simp

/-- C8, witness: the amended theorem applied to the upper-roman weight
table at 1994 (nonzero residue iff unrepresentable; here the residue is 0
and indeed `format 1994 = "MCMXCIV"`) and zero on the roman table (empty
string) and on a korean-shaped table with a zero-weight last symbol. -/
theorem c8_amended_witness :
    (additiveFormat (zipW ROMAN_WEIGHTS
        ["M", "CM", "D", "CD", "C", "XC", "L", "XL", "X", "IX", "V", "IV",
         "I"]) 1994 = none ↔
      (addLoop (zipW ROMAN_WEIGHTS
        ["M", "CM", "D", "CD", "C", "XC", "L", "XL", "X", "IX", "V", "IV",
         "I"]) 1994 "").2 ≠ 0) ∧
    additiveFormat (zipW ROMAN_WEIGHTS
      ["M", "CM", "D", "CD", "C", "XC", "L", "XL", "X", "IX", "V", "IV",
       "I"]) 1994 = some "MCMXCIV" ∧
    additiveFormat (zipW ROMAN_WEIGHTS
      ["M", "CM", "D", "CD", "C", "XC", "L", "XL", "X", "IX", "V", "IV",
       "I"]) 0 = some "" ∧
    additiveFormat [((1 : Int), "a"), ((0 : Int), "z")] 0 = some "z" := by
  refine ⟨((c8_amended _).1 (by decide) (by decide)).1 1994 (by decide),
    by decide,
    ((c8_amended _).1 (by decide) (by decide)).2,
    (c8_amended _).2 [((1 : Int), "a")] "z" rfl⟩

/-- C9: `Fixed.format` returns `symbols[v − first]` exactly when
`0 ≤ v − first < N`, and reports every other integer (including
`v < first`) as unrepresentable, upon which the style delegates the value
to its fallback (the fixed system's own range is unbounded, so the range
test never intervenes). -/
theorem c9_fixed (syms : List String) (first v : Int) (negative : NegSym)
    (pad : Option PadSpec) (f : Style) :
    (0 ≤ v - first → v - first < syms.length →
      fixedFormat syms first v = syms.get? (v - first).toNat)
    ∧ (v - first < 0 ∨ (syms.length : Int) ≤ v - first →
      fixedFormat syms first v = none)
    ∧ ((if v < 0 then |v| else v) - first < 0 ∨
        (syms.length : Int) ≤ (if v < 0 then |v| else v) - first →
      (Style.mk (.fixed syms first) negative ⟨.negInf, .posInf⟩ pad
        (some f)).formatNumber v = f.formatNumber v) := by
  refine ⟨fixedFormat_in syms first v, fixedFormat_out syms first v, ?_⟩
  intro h
  rw [formatNumber_sysnone _ _ _ _ _ _ (outOfRange_unbounded _)
    (by simpa [CSystem.format] using
      fixedFormat_out syms first (if v < 0 then |v| else v) h)]

/-- C9, witness: the cjk-heavenly-stem symbols — value 3 is the third
stem, while 11 (beyond the ten symbols) and 0 (below `firstValue = 1`) are
unrepresentable and the style hands 11 to the decimal fallback, which
renders "11". -/
theorem c9_fixed_witness :
    fixedFormat (strChars "甲乙丙丁戊己庚辛壬癸") 1 3 = some "丙" ∧
    fixedFormat (strChars "甲乙丙丁戊己庚辛壬癸") 1 11 = none ∧
    fixedFormat (strChars "甲乙丙丁戊己庚辛壬癸") 1 0 = none ∧
    cjk_heavenly_stem.formatNumber 11 = FALLBACK.formatNumber 11 ∧
    FALLBACK.formatNumber 11 = some "11" := by
  refine ⟨?_, ?_, ?_, ?_, ?_⟩
  · have h := (c9_fixed (strChars "甲乙丙丁戊己庚辛壬癸") 1 3 ⟨"-", none⟩
      none FALLBACK).1 (by decide) (by decide)
    rw [h]
    decide
  · exact (c9_fixed (strChars "甲乙丙丁戊己庚辛壬癸") 1 11 ⟨"-", none⟩
      none FALLBACK).2.1 (by decide)
  · exact (c9_fixed (strChars "甲乙丙丁戊己庚辛壬癸") 1 0 ⟨"-", none⟩
      none FALLBACK).2.1 (by decide)
  · exact (c9_fixed (strChars "甲乙丙丁戊己庚辛壬癸") 1 11 ⟨"-", none⟩
      none FALLBACK).2.2 (by decide)
  · simp [FALLBACK, styleCreate, Style.formatNumber, outOfRange,
      numLtBound, numGtBound, jsOrBound, CSystem.range, CSystem.format,
      numericFormat, numericLoop, strChars]


/-! ### Observer engine lemmas -/

theorem stepNode_notifs_empty (d : Obs.Doc) (T : Obs.Table) (n : Obs.NodeId)
    (h : (Obs.stepNode d T n).changed = false) :
    (Obs.stepNode d T n).notifs = [] := by
  simp only [Obs.stepNode, Bool.or_eq_false_iff] at h ⊢
  simp [h.1.1, h.1.2]

theorem mem_childIds (d : Obs.Doc) (p m : Obs.NodeId)
    (h : m ∈ d.childIds p) : m ∈ d.ids := by
  simp only [Obs.Doc.childIds, Obs.Doc.ids, List.mem_map, List.mem_filter]
    at h ⊢
  obtain ⟨q, ⟨hq, _⟩, rfl⟩ := h
  exact ⟨q, hq, rfl⟩

theorem nextIn_mem (x m : Obs.NodeId) :
    ∀ l : List Obs.NodeId, Obs.nextIn l x = some m → m ∈ l := by
  intro l
  induction l with
  | nil => intro h; simp [Obs.nextIn] at h
  | cons a t ih =>
    intro h
    match t, ih, h with
    | [], _, h => simp [Obs.nextIn] at h
    | b :: rest, ih, h =>
      rw [Obs.nextIn] at h
      split at h
      · cases h; simp
      · have := ih h
        simp only [List.mem_cons] at this ⊢
        exact Or.inr this

theorem nextSibling_mem (d : Obs.Doc) (n m : Obs.NodeId)
    (h : d.nextSibling n = some m) : m ∈ d.ids := by
  rw [Obs.Doc.nextSibling] at h
  cases hp : d.parentOf n with
  | none => rw [hp] at h; cases h
  | some p =>
    rw [hp] at h
    exact mem_childIds d p m (nextIn_mem n m _ h)

theorem climbNext_mem (d : Obs.Doc) (root m : Obs.NodeId) :
    ∀ (fuel : Nat) (n : Obs.NodeId),
      Obs.climbNext d root fuel n = some m → m ∈ d.ids := by
  intro fuel
  induction fuel with
  | zero => intro n h; simp [Obs.climbNext] at h
  | succ k ih =>
    intro n h
    rw [Obs.climbNext] at h
    cases hs : d.nextSibling n with
    | some s =>
      rw [hs] at h
      have h' : some s = some m := h
      cases h'
      exact nextSibling_mem d n m hs
    | none =>
      rw [hs] at h
      cases hp : d.parentOf n with
      | none =>
        rw [hp] at h
        have h' : (none : Option Obs.NodeId) = some m := h
        cases h'
      | some p =>
        rw [hp] at h
        have h' : (if p = root then none
            else Obs.climbNext d root k p) = some m := h
        by_cases hr : p = root
        · rw [if_pos hr] at h'; cases h'
        · rw [if_neg hr] at h'; exact ih p h' 

theorem next_mem (d : Obs.Doc) (root n m : Obs.NodeId)
    (h : Obs.next d root n true = some m) : m ∈ d.ids := by
  rw [Obs.next] at h
  split at h
  · rw [Obs.Doc.firstChild] at h
    cases hc : d.childIds n with
    | nil => rw [hc] at h; cases h
    | cons a t =>
      rw [hc] at h
      cases h
      exact mem_childIds d n m (by rw [hc]; simp)
  · exact climbNext_mem d root m _ n h

theorem walk_fix (d : Obs.Doc) (root : Obs.NodeId) (T : Obs.Table)
    (hfix : ∀ x ∈ d.ids, Obs.stepNode d T x = ⟨T, [], false⟩) :
    ∀ (fuel : Nat) (n : Obs.NodeId), n ∈ d.ids →
      Obs.walk d root fuel (some n) T = (T, [], some n) := by
  intro fuel n hn
  cases fuel with
  | zero => rw [Obs.walk]
  | succ k =>
    rw [Obs.walk, hfix n hn]
    simp

theorem pruneDirty_subset (d : Obs.Doc) (rest : List Obs.NodeId)
    (q : Option Obs.NodeId) (x : Obs.NodeId)
    (h : x ∈ Obs.pruneDirty d rest q) : x ∈ rest := by
  cases q <;>
    exact (List.dropWhile_sublist _).subset h

theorem updateLoop_fix (d : Obs.Doc) (root : Obs.NodeId) (T : Obs.Table)
    (hfix : ∀ x ∈ d.ids, Obs.stepNode d T x = ⟨T, [], false⟩) :
    ∀ (fuel : Nat) (dirty : List Obs.NodeId),
      (∀ x ∈ dirty, x ∈ d.ids) →
      Obs.updateLoop d root fuel dirty T = (T, []) := by
  intro fuel
  induction fuel with
  | zero =>
    intro dirty _
    cases dirty with
    | nil => rw [Obs.updateLoop]
    | cons a t => rw [Obs.updateLoop] <;> simp
  | succ k ih =>
    intro dirty hd
    cases dirty with
    | nil => rw [Obs.updateLoop]
    | cons n rest =>
      rw [Obs.updateLoop]
      rw [walk_fix d root T hfix _ n (hd n (by simp))]
      rw [ih _ (fun x hx => hd x (by
        simp only [List.mem_cons]
        exact Or.inr (pruneDirty_subset d rest _ x hx)))]
      rfl

/-- C1 — counterexample. The claim's replacement rule (translated in
`c1ClaimPop`) holds for the top entry `(node 1, 5)` against acting node
2 — node 1 is an order-preceding sibling, not an ancestor, not a
before-pseudo-node — so the claim predicts the top entry is popped
before pushing, leaving `[(node 2, 9)]`. The code (`performActions`)
instead stacks both instances, as the full sweep over two sibling
resets confirms, because `!isBefore` at `observer.ts:344` negates the
`isBefore` function object itself and the sibling disjunct never
fires. -/
theorem c1_counterexample :
    Obs.c1ClaimPop Obs.exDocSib 3 ⟨.node 1, 5⟩ (.node 2) = true ∧
    Obs.performActions Obs.exDocSib (.node 2) ⟨some 9, none, none⟩
      [⟨.node 1, 5⟩] = [⟨.node 1, 5⟩, ⟨.node 2, 9⟩] ∧
    List.lookup 2 (Obs.walk Obs.exDocSib 0 5 (some 1) Obs.exTableSib).1
      = some ⟨⟨[(7, [⟨.node 1, 5⟩, ⟨.node 2, 9⟩])],
          some (Obs.exActsReset 9)⟩, none, []⟩ := by
  decide

/-- C1 — amended. When a reset action for a counter is applied during a
sweep, a new Instance at the acting origin is pushed onto the counter's
merged stack, and the existing top entry is replaced (popped before the
push) exactly when its origin is the acting origin itself. The
sibling-collapse clause of the original claim is dead code: the guard
`!isBefore && isSibling(...)` negates the always-truthy `isBefore`
function object (the call parentheses are missing), so the disjunct is
constantly false. `performActions` (translated from the source) agrees
with `performActionsAmended` (written from this amended sentence) on
every input. -/
theorem c1_amended (d : Obs.Doc) (origin : Obs.Origin) (acts : Obs.Action)
    (instances : List Obs.Instance) :
    Obs.performActions d origin acts instances
      = Obs.performActionsAmended origin acts instances := by
  obtain ⟨r, i, v⟩ := acts
  cases r <;> cases i <;> cases v <;>
    simp [Obs.performActions, Obs.performActionsAmended, Obs.jsNotIsBefore]

/-- C1 — amended, witness. -/
theorem c1_amended_witness :
    Obs.performActions Obs.exDocSib (.node 2) ⟨some 9, none, none⟩
      [⟨.node 2, 5⟩]
      = Obs.performActionsAmended (.node 2) ⟨some 9, none, none⟩
        [⟨.node 2, 5⟩] :=
  c1_amended Obs.exDocSib (.node 2) ⟨some 9, none, none⟩ [⟨.node 2, 5⟩]

/-- C4: when the node processed by a sweep step has a before-pseudo-node
with pending actions, the step stores for it the result of the same
`processCounters` merge/apply logic applied to the before origin, with
**both** the counter source and the value source equal to the owner's
just-resolved post-action instances (`nodePost`), never the owner's
pre-action state. -/
theorem c4_before_post_action (d : Obs.Doc) (T : Obs.Table)
    (n : Obs.NodeId) (b : Obs.CountersSt) (acts : Obs.Actions)
    (hb : (Obs.stateOf T n).before = some b)
    (ha : b.actions = some acts) :
    (Obs.stepNode d T n).table = Obs.tset T n
      ⟨Obs.nodePost d T n,
       some (Obs.processCounters d (.before n) b
         (Obs.nodePost d T n).instances (Obs.nodePost d T n).instances).2,
       (Obs.stateOf T n).listeners⟩ := by
  obtain ⟨binst, bacts⟩ := b
  cases ha
  simp only [Obs.stepNode, Obs.nodePost, Obs.processBefore, hb]

/-- C4 — witness: on a concrete table where the owner's pre-action
stacks are empty but its reset produces `[(node 1, 3)]`, the stored
`::before` state is computed from the post-action stacks (its increment
yields value 5, inheriting the owner's instance), not from the
pre-action state (which would have produced a fresh instance at the
before origin with value 2). -/
theorem c4_witness :
    (Obs.stateOf Obs.exTableB4 1).before = some Obs.exB4 ∧
    Obs.exB4.actions = some Obs.exActsB4 ∧
    (Obs.stepNode Obs.exDocB4 Obs.exTableB4 1).table
      = Obs.tset Obs.exTableB4 1
        ⟨Obs.nodePost Obs.exDocB4 Obs.exTableB4 1,
         some (Obs.processCounters Obs.exDocB4 (.before 1) Obs.exB4
           (Obs.nodePost Obs.exDocB4 Obs.exTableB4 1).instances
           (Obs.nodePost Obs.exDocB4 Obs.exTableB4 1).instances).2,
         (Obs.stateOf Obs.exTableB4 1).listeners⟩ ∧
    (Obs.processCounters Obs.exDocB4 (.before 1) Obs.exB4
        (Obs.nodePost Obs.exDocB4 Obs.exTableB4 1).instances
        (Obs.nodePost Obs.exDocB4 Obs.exTableB4 1).instances).2.instances
      = [(7, [⟨.node 1, 5⟩])] ∧
    (Obs.processCounters Obs.exDocB4 (.before 1) Obs.exB4
        (Obs.stateOf Obs.exTableB4 1).counters.instances
        (Obs.stateOf Obs.exTableB4 1).counters.instances).2.instances
      = [(7, [⟨.before 1, 2⟩])] :=
  ⟨by decide, by decide,
   c4_before_post_action Obs.exDocB4 Obs.exTableB4 1 Obs.exB4 Obs.exActsB4
     (by decide) (by decide),
   by decide, by decide⟩

/-- C5: (idempotence) if recomputing any document node against table `T`
reproduces exactly the stored table with no notification and no change —
the situation after a sweep with no intervening Action or structural
change — then a sweep over any dirty list contained in the document
returns `T` itself and emits zero notifications; and (early stop) the
walk stops at the first node whose recomputed state is unchanged
(per-counter origin-and-value structural equality, via
`compareInstances` inside `instancesChanged`), returning immediately
with that node and no notifications from it. -/
theorem c5_idempotence_and_stop :
    (∀ (d : Obs.Doc) (root : Obs.NodeId) (T : Obs.Table)
        (dirty : List Obs.NodeId),
      (∀ x ∈ d.ids, Obs.stepNode d T x = ⟨T, [], false⟩) →
      (∀ x ∈ dirty, x ∈ d.ids) →
      Obs.update d root dirty T = (T, [])) ∧
    (∀ (d : Obs.Doc) (root : Obs.NodeId) (T : Obs.Table) (n : Obs.NodeId)
        (fuel : Nat),
      (Obs.stepNode d T n).changed = false →
      Obs.walk d root (fuel + 1) (some n) T
        = ((Obs.stepNode d T n).table, [], some n)) := by
  constructor
  · intro d root T dirty hfix hd
    rw [Obs.update]
    exact updateLoop_fix d root T hfix _ _
      (fun x hx => hd x (by
        have : x ∈ dirty.mergeSort (fun a b => d.posOf a ≤ d.posOf b) := hx
        rwa [List.mem_mergeSort] at this))
  · intro d root T n fuel h
    rw [Obs.walk]
    rw [h]
    simp [stepNode_notifs_empty d T n h]

/-- C5 — witness: `exTable3` is the table left by a completed sweep of
`exDoc3`; re-sweeping any dirty node emits no notification and leaves
the table untouched, and a walk started at node 3 stops there
immediately. -/
theorem c5_witness :
    Obs.update Obs.exDoc3 0 [2] Obs.exTable3 = (Obs.exTable3, []) ∧
    Obs.walk Obs.exDoc3 0 4 (some 3) Obs.exTable3
      = ((Obs.stepNode Obs.exDoc3 Obs.exTable3 3).table, [], some 3) :=
  ⟨c5_idempotence_and_stop.1 Obs.exDoc3 0 Obs.exTable3 [2]
     (by decide) (by decide),
   c5_idempotence_and_stop.2 Obs.exDoc3 0 Obs.exTable3 3 3 (by decide)⟩

/-- C6: the duplicate-registration check is broken by `findNode`'s
equality branch returning `start` instead of the probe index. A second
managed registration of node 2 in a single-entry table does throw
without mutating, but in the two-entry table `[node 1, node 2]`
(reachable, as the first two conjuncts show, by registering node 2 and
then node 1) re-registering node 2 probes index 1, hits the node,
returns 0, compares against node 1, and **inserts a duplicate managed
registration** — no error, a corrupted table, and three notifications —
contradicting the claim (and the class's own doc comment). -/
theorem c6_duplicate_register_slips :
    SC.register [] 2 20 (.increment 1)
      = .ok ([⟨2, .managed, [20], 1, some (.increment 1)⟩], [(20, 1)]) ∧
    SC.register [⟨2, .managed, [20], 1, some (.increment 1)⟩] 1 10
        (.increment 1)
      = .ok ([⟨1, .managed, [10], 1, some (.increment 1)⟩,
              ⟨2, .managed, [20], 2, some (.increment 1)⟩],
             [(10, 1), (20, 2)]) ∧
    SC.register [⟨2, .managed, [20], 1, some (.increment 1)⟩] 2 21
        (.increment 1)
      = .error () ∧
    SC.register
        [⟨1, .managed, [10], 1, some (.increment 1)⟩,
         ⟨2, .managed, [20], 2, some (.increment 1)⟩] 2 21 (.increment 1)
      = .ok ([⟨2, .managed, [21], 1, some (.increment 1)⟩,
              ⟨1, .managed, [10], 2, some (.increment 1)⟩,
              ⟨2, .managed, [20], 3, some (.increment 1)⟩],
             [(21, 1), (10, 2), (20, 3)]) :=
  ⟨rfl, rfl, rfl, rfl⟩

/-- C7: a second teardown call is **not** a benign no-op. The
`observe` teardown (`splice(findIndex(...), 1)`) correctly removes its
own listener on the first call, but called again once the listener is
gone, `findIndex` yields `-1` and `splice(-1, 1)` removes whichever
listener is currently last. At the `State` level, a second `unwatch`
whose registration still exists likewise splices out the last listener;
a second `unwatch` whose registration is gone dereferences `undefined`
and throws; and a second `unregister` removes the **last remaining
registration** (`splice(-1, 1)`) and then throws from `update(-1)`. -/
theorem c7_teardown_not_noop :
    Obs.unobserveTeardown [1, 2] 1 = [2] ∧
    Obs.unobserveTeardown [2] 1 = [] ∧
    SC.unwatch [⟨1, .observed, [10, 11], 0, none⟩] 1 12
      = .ok [⟨1, .observed, [10], 0, none⟩] ∧
    SC.unwatch [] 1 10 = .error [] ∧
    SC.unregister [⟨1, .managed, [10], 1, some (.increment 1)⟩] 2
      = .error [] :=
  ⟨rfl, rfl, rfl, rfl, rfl⟩

/-- C10: `observe(node, notify)` synchronously notifies the new listener
exactly once, with the node's current counter instances; when the node
has no state yet the created state is empty и the listener receives an
empty instances map; and the listener is appended to the node's listener
list in the stored table. -/
theorem c10_observe_notifies_once (T : Obs.Table) (n : Obs.NodeId)
    (lid : Nat) :
    (Obs.observe T n lid).2 = [(lid, (Obs.stateOf T n).counters.instances)] ∧
    (List.lookup n T = none → (Obs.observe T n lid).2 = [(lid, [])]) ∧
    (Obs.observe T n lid).1 = Obs.tset T n
      ⟨(Obs.stateOf T n).counters, (Obs.stateOf T n).before,
       (Obs.stateOf T n).listeners ++ [lid]⟩ := by
  refine ⟨rfl, ?_, rfl⟩
  intro h
  simp [Obs.observe, Obs.stateOf, h, Obs.emptyState]

/-- C10 — witness: observing a node with no state yet notifies once with
the empty instances map. -/
theorem c10_witness :
    List.lookup 5 ([] : Obs.Table) = none ∧
    (Obs.observe [] 5 42).2 = [(42, [])] :=
  ⟨by decide, (c10_observe_notifies_once [] 5 42).2.1 (by decide)⟩


end ReactCounters
